import Mathlib

/-!
# Verification of the Durak card-game engine

Shallow embedding of the repository's core:
* `backend/src/game/CardLogic.ts` — pure card rules,
* `backend/src/game/GameSession.ts` — the per-match state machine,
* `backend/src/game/GameManager.ts` — the registry of live matches.

Cards are encoded in the source as strings `"<rank><suit>"`; `parseCard`
decomposes such a string into its rank and suit, and every card-level
operation works only through that decomposition.  Since the encoding is a
bijection between well-formed card strings and rank–suit pairs, cards are
modelled here directly as a `Card` structure holding the parsed rank and
suit.  The placeholder string `'back'` used by `getStateForPlayer` is not a
well-formed card, so view hands use a separate `ViewCard` sum type.

JavaScript record accesses `this.hands[p]` on a missing key yield
`undefined`, and a subsequent method call (`.includes`, `.length`, `.push`)
throws a `TypeError`.  Operations that can reach such an access are modelled
in the `Except Unit` monad, `Except.error ()` standing for the thrown
exception; all other control flow is mirrored branch for branch.
-/

deriving instance DecidableEq for Except

/-- Suit of a card: hearts, diamonds, clubs, spades (`'h' | 'd' | 'c' | 's'`
in `shared/types.ts`). -/
inductive Suit where
  | h | d | c | s
deriving DecidableEq, Repr, Fintype

/-- Rank of a card (`'6' | '7' | '8' | '9' | '10' | 'J' | 'Q' | 'K' | 'A'`
in `shared/types.ts`). -/
inductive Rank where
  | r6 | r7 | r8 | r9 | r10 | J | Q | K | A
deriving DecidableEq, Repr, Fintype

/-- A well-formed card, i.e. the parsed form of a `"<rank><suit>"` string. -/
structure Card where
  rank : Rank
  suit : Suit
deriving DecidableEq, Repr

/-- `RANK_VALUES` from `shared/types.ts`. -/
def RANK_VALUES : Rank → Nat
  | .r6 => 6
  | .r7 => 7
  | .r8 => 8
  | .r9 => 9
  | .r10 => 10
  | .J => 11
  | .Q => 12
  | .K => 13
  | .A => 14

/-- The string form of a rank (used when rebuilding the `"<rank><suit>"`
encoding for log messages). -/
def rankStr : Rank → String
  | .r6 => "6"
  | .r7 => "7"
  | .r8 => "8"
  | .r9 => "9"
  | .r10 => "10"
  | .J => "J"
  | .Q => "Q"
  | .K => "K"
  | .A => "A"

/-- The string form of a suit. -/
def suitStr : Suit → String
  | .h => "h"
  | .d => "d"
  | .c => "c"
  | .s => "s"

/-- The `"<rank><suit>"` encoding of a card. -/
def cardStr (c : Card) : String := rankStr c.rank ++ suitStr c.suit

/-- Ordinal of a suit under single-character `localeCompare`
(`'c' < 'd' < 'h' < 's'` in character-code order), as used by the
comparator inside `sortHand`. -/
def suitOrd : Suit → Nat
  | .c => 0
  | .d => 1
  | .h => 2
  | .s => 3

/-- `generateDeck` from `CardLogic.ts`: all 36 cards, suits in the order
`h, d, c, s`, ranks `6 … A` within each suit. -/
def generateDeck : List Card :=
  ([Suit.h, Suit.d, Suit.c, Suit.s]).flatMap fun suit =>
    ([Rank.r6, Rank.r7, Rank.r8, Rank.r9, Rank.r10, Rank.J, Rank.Q, Rank.K, Rank.A]).map
      fun rank => ⟨rank, suit⟩

/-- `canBeat` from `CardLogic.ts`, branch for branch.  (In the source the
two rank values are looked up first; the suit tests then select which
comparison, if any, is returned.) -/
def canBeat (attackCard defenseCard : Card) (trumpSuit : Suit) : Bool :=
  let attackValue := RANK_VALUES attackCard.rank
  let defenseValue := RANK_VALUES defenseCard.rank
  let attackIsTrump := attackCard.suit = trumpSuit
  let defenseIsTrump := defenseCard.suit = trumpSuit
  if attackCard.suit = defenseCard.suit ∧ ¬ attackIsTrump then
    defenseValue > attackValue
  else if attackIsTrump ∧ defenseIsTrump then
    defenseValue > attackValue
  else if ¬ attackIsTrump ∧ defenseIsTrump then
    true
  else
    false

/-- `canThrowIn` from `CardLogic.ts`: the thrown card must share its rank
with some card already on the table. -/
def canThrowIn (card : Card) (tableCards : List Card) : Bool :=
  if tableCards.isEmpty then false
  else tableCards.any fun tableCard => tableCard.rank = card.rank

/-- Sort key realising the comparator of `sortHand` in `CardLogic.ts`:
trump cards strictly after non-trump cards, then suits in
`localeCompare` order, then ascending rank value.  The comparator is a
total order on distinct cards, so any correct sort produces the same
sequence; we realise it by insertion sort on this key. -/
def sortKey (trumpSuit : Option Suit) (c : Card) : Nat :=
  (if trumpSuit = some c.suit then 1 else 0) * 1000 + suitOrd c.suit * 20 + RANK_VALUES c.rank

/-- Insert a card into a list sorted by `sortKey`. -/
def insertCard (k : Card → Nat) (c : Card) : List Card → List Card
  | [] => [c]
  | x :: xs => if k c ≤ k x then c :: x :: xs else x :: insertCard k c xs

/-- Insertion sort on a card list by the given key. -/
def sortCards (k : Card → Nat) : List Card → List Card
  | [] => []
  | x :: xs => insertCard k x (sortCards k xs)

/-- `sortHand` from `CardLogic.ts`. -/
def sortHand (hand : List Card) (trumpSuit : Option Suit) : List Card :=
  sortCards (sortKey trumpSuit) hand

theorem insertCard_length (k : Card → Nat) (c : Card) (l : List Card) :
    (insertCard k c l).length = l.length + 1 := by
  induction l with
  | nil => rfl
  | cons x xs ih =>
    simp only [insertCard]
    split <;> simp [ih]

theorem sortCards_length (k : Card → Nat) (l : List Card) :
    (sortCards k l).length = l.length := by
  induction l with
  | nil => rfl
  | cons x xs ih => simp [sortCards, insertCard_length, ih]

theorem sortHand_length (hand : List Card) (t : Option Suit) :
    (sortHand hand t).length = hand.length := by
  simp [sortHand, sortCards_length]

/-- C2 sanity check from the spec's table: `canBeat("7h","6s","h")` is
false — the attack is trump while the defense is not. -/
example : canBeat ⟨.r7, .h⟩ ⟨.r6, .s⟩ .h = false := by decide

example : canBeat ⟨.r7, .h⟩ ⟨.K, .h⟩ .s = true := by decide
example : canBeat ⟨.r7, .h⟩ ⟨.r6, .s⟩ .s = true := by decide
example : canBeat ⟨.r6, .s⟩ ⟨.r7, .s⟩ .s = true := by decide

/-- C2: `canBeat` returns true exactly when (a) same non-trump suit and
higher defense rank, (b) both trump and higher defense rank, or (c) the
defense is trump and the attack is not; false otherwise. -/
theorem canBeat_characterization :
    ∀ (ar dr : Rank) (asuit dsuit t : Suit),
      canBeat ⟨ar, asuit⟩ ⟨dr, dsuit⟩ t = true ↔
        ((asuit = dsuit ∧ asuit ≠ t ∧ RANK_VALUES dr > RANK_VALUES ar) ∨
         (asuit = t ∧ dsuit = t ∧ RANK_VALUES dr > RANK_VALUES ar) ∨
         (dsuit = t ∧ asuit ≠ t)) := by
  decide

/-- One attack/defense pair on the table (`CardPair` in `shared/types.ts`). -/
structure CardPair where
  attack : Card
  defense : Option Card
deriving DecidableEq, Repr

/-- Game phase (`'waiting' | 'playing' | 'finished'`). -/
inductive Phase where
  | waiting | playing | finished
deriving DecidableEq, Repr

/-- An entry of a hand as rendered in a per-player view: either a real card
or the opaque `'back'` placeholder string. -/
inductive ViewCard where
  | card (c : Card)
  | back
deriving DecidableEq, Repr

/-- First binding of a key in an association list (a JS object / `Map`
lookup; `none` models `undefined`). -/
def alLookup {β : Type} (l : List (String × β)) (k : String) : Option β :=
  match l with
  | [] => none
  | (k', v) :: rest => if k' = k then some v else alLookup rest k

/-- Key assignment in an association list: replaces the binding if the key
is present, appends it otherwise (a JS `obj[k] = v` / `Map.set`). -/
def alSet {β : Type} (l : List (String × β)) (k : String) (v : β) : List (String × β) :=
  match l with
  | [] => [(k, v)]
  | (k', v') :: rest => if k' = k then (k, v) :: rest else (k', v') :: alSet rest k v

/-- Key removal from an association list (`delete obj[k]` / `Map.delete`). -/
def alErase {β : Type} (l : List (String × β)) (k : String) : List (String × β) :=
  l.filter fun e => ¬ e.1 = k

/-- Remove the first occurrence of a card from a hand
(`removeCardFromHand` in `GameSession.ts`: `indexOf` + `splice(index, 1)`;
a card that is absent leaves the hand unchanged). -/
def removeFirst (hand : List Card) (card : Card) : List Card :=
  match hand with
  | [] => []
  | x :: xs => if x = card then xs else x :: removeFirst xs card

/-- JS `Array.pop`: removes and returns the LAST element. -/
def popLast : List Card → Option (Card × List Card)
  | [] => none
  | [x] => some (x, [])
  | x :: y :: xs =>
    match popLast (y :: xs) with
    | some (c, rest) => some (c, x :: rest)
    | none => none

/-- JS truthiness filter for `[this.attacker, this.defender].filter(Boolean)`:
drops `null`/`undefined` and the empty string. -/
def truthyList (l : List (Option String)) : List String :=
  l.filterMap fun o =>
    match o with
    | some x => if x = "" then none else some x
    | none => none

/-- The mutable state of `GameSession` (its public fields). -/
structure GameSession where
  roomId : String
  players : List String
  hands : List (String × List Card)
  deck : List Card
  trumpCard : Option Card
  trumpSuit : Option Suit
  table : List CardPair
  attacker : Option String
  defender : Option String
  phase : Phase
  winner : Option String
  canThrow : Bool
  lastAction : String
deriving DecidableEq, Repr

namespace GameSession

/-- `new GameSession(roomId)`: the field initialisers of the class. -/
def new (roomId : String) : GameSession :=
  { roomId := roomId, players := [], hands := [], deck := [], trumpCard := none,
    trumpSuit := none, table := [], attacker := none, defender := none,
    phase := .waiting, winner := none, canThrow := false, lastAction := "" }

/-- All cards on the table, attack and defense sides
(`this.table.flatMap(p => [p.attack, p.defense].filter(Boolean))`). -/
def tableCards (t : List CardPair) : List Card :=
  t.flatMap fun p => p.attack :: p.defense.toList

/-- Number of cards on the table (attack and defense sides). -/
def tableCount (t : List CardPair) : Nat := (tableCards t).length

/-- `compareCards` from `GameSession.ts` (rank values only). -/
def compareCards (a b : Card) : Int :=
  (RANK_VALUES a.rank : Int) - (RANK_VALUES b.rank : Int)

/-- `attack(playerId, card)` from `GameSession.ts`. -/
def attack (s : GameSession) (playerId : String) (card : Card) :
    Except Unit (Bool × GameSession) :=
  if s.phase ≠ .playing then .ok (false, s)
  else if s.attacker ≠ some playerId then .ok (false, s)
  else
    match alLookup s.hands playerId with
    | none => .error ()
    | some hand =>
      if card ∉ hand then .ok (false, s)
      else if s.table.isEmpty then
        .ok (true, { s with
          hands := alSet s.hands playerId (removeFirst hand card),
          table := s.table ++ [⟨card, none⟩],
          canThrow := false,
          lastAction := playerId ++ " атакует картой " ++ cardStr card })
      else .ok (false, s)

/-- `this.table.find(p => p.attack === attackCard && p.defense === null)`
followed by `pair.defense = defenseCard`: replaces the first undefended
pair carrying `attackCard`, or fails. -/
def defendTable (table : List CardPair) (attackCard defenseCard : Card) :
    Option (List CardPair) :=
  match table with
  | [] => none
  | p :: ps =>
    if p.attack = attackCard ∧ p.defense = none then
      some (⟨p.attack, some defenseCard⟩ :: ps)
    else
      (defendTable ps attackCard defenseCard).map (p :: ·)

/-- `defend(playerId, attackCard, defenseCard)` from `GameSession.ts`. -/
def defend (s : GameSession) (playerId : String) (attackCard defenseCard : Card) :
    Except Unit (Bool × GameSession) :=
  if s.phase ≠ .playing then .ok (false, s)
  else if s.defender ≠ some playerId then .ok (false, s)
  else
    match alLookup s.hands playerId with
    | none => .error ()
    | some hand =>
      if defenseCard ∉ hand then .ok (false, s)
      else
        match s.trumpSuit with
        | none => .ok (false, s)
        | some trump =>
          match defendTable s.table attackCard defenseCard with
          | none => .ok (false, s)
          | some table' =>
            if ¬ canBeat attackCard defenseCard trump then .ok (false, s)
            else
              .ok (true, { s with
                hands := alSet s.hands playerId (removeFirst hand defenseCard),
                table := table',
                canThrow := table'.all fun p => p.defense ≠ none,
                lastAction := playerId ++ " защищается картой " ++ cardStr defenseCard })

/-- `this.defender ? this.hands[this.defender].length : 0` inside
`throwIn`; the hand access throws when the defender has no hand entry. -/
def defenderHandSize (s : GameSession) : Except Unit Nat :=
  match s.defender with
  | none => .ok 0
  | some d =>
    if d = "" then .ok 0
    else
      match alLookup s.hands d with
      | none => .error ()
      | some h => .ok h.length

/-- `throwIn(playerId, card)` from `GameSession.ts`.  Note that the actor
is never compared against the attacker or defender, and the hand lookup
for `playerId` precedes every remaining check. -/
def throwIn (s : GameSession) (playerId : String) (card : Card) :
    Except Unit (Bool × GameSession) :=
  if s.phase ≠ .playing then .ok (false, s)
  else if ¬ s.canThrow then .ok (false, s)
  else
    match alLookup s.hands playerId with
    | none => .error ()
    | some hand =>
      if card ∉ hand then .ok (false, s)
      else if ¬ canThrowIn card (tableCards s.table) then .ok (false, s)
      else
        match defenderHandSize s with
        | .error () => .error ()
        | .ok dsz =>
          if dsz ≤ (s.table.filter fun p => p.defense = none).length then .ok (false, s)
          else
            .ok (true, { s with
              hands := alSet s.hands playerId (removeFirst hand card),
              table := s.table ++ [⟨card, none⟩],
              canThrow := false,
              lastAction := playerId ++ " подкидывает карту " ++ cardStr card })

/-- The `while (hand.length < 6 && deck.length > 0)` draw loop of
`refillHands`, with explicit fuel (each iteration pops one card, so
`deck.length` iterations always suffice). -/
def drawLoop : List Card → List Card → Nat → List Card × List Card
  | hand, deck, 0 => (hand, deck)
  | hand, deck, fuel + 1 =>
    if hand.length < 6 ∧ deck ≠ [] then
      match popLast deck with
      | some (c, deck') => drawLoop (hand ++ [c]) deck' fuel
      | none => (hand, deck)
    else (hand, deck)

/-- The per-player body of `refillHands`: draw to six, then re-sort. -/
def refillFold (s : GameSession) : List String → Except Unit GameSession
  | [] => .ok s
  | pid :: rest =>
    match alLookup s.hands pid with
    | none => .error ()
    | some hand =>
      let hd := drawLoop hand s.deck s.deck.length
      refillFold
        { s with hands := alSet s.hands pid (sortHand hd.1 s.trumpSuit), deck := hd.2 }
        rest

/-- `refillHands` from `GameSession.ts`: attacker first, then defender;
afterwards the trump indicator is discarded if the deck ran out. -/
def refillHands (s : GameSession) : Except Unit GameSession := do
  let s' ← refillFold s (truthyList [s.attacker, s.defender])
  if s'.deck.isEmpty ∧ s'.trumpCard ≠ none then
    .ok { s' with trumpCard := none }
  else
    .ok s'

/-- The `for (const playerId of this.players)` body of `checkWinner`.
`s` accumulates the winner / phase updates; the hands and players it
reads are never modified by the loop. -/
def checkWinnerGo (s : GameSession) : List String → Except Unit GameSession
  | [] => .ok s
  | pid :: rest =>
    match alLookup s.hands pid with
    | none => .error ()
    | some h =>
      if h.length = 0 then
        match s.players.find? (fun p => ¬ p = pid) with
        | some opp =>
          match alLookup s.hands opp with
          | none => .error ()
          | some ho =>
            if ho.length > 0 then
              checkWinnerGo
                { s with winner := some pid, phase := .finished,
                         lastAction := pid ++ " победил!" } rest
            else checkWinnerGo s rest
        | none => checkWinnerGo s rest
      else checkWinnerGo s rest

/-- `checkWinner` from `GameSession.ts`. -/
def checkWinner (s : GameSession) : Except Unit GameSession :=
  if s.deck.length = 0 ∧ s.trumpCard = none then checkWinnerGo s s.players
  else .ok s

/-- `passTurn(playerId)` from `GameSession.ts`. -/
def passTurn (s : GameSession) (playerId : String) :
    Except Unit (Bool × GameSession) :=
  if s.phase ≠ .playing then .ok (false, s)
  else if s.attacker ≠ some playerId then .ok (false, s)
  else if ¬ (s.table.all fun p => p.defense ≠ none) then .ok (false, s)
  else do
    let s1 := { s with table := [], canThrow := false }
    let s2 ← refillHands s1
    let s3 := { s2 with attacker := s2.defender, defender := s2.attacker,
                        lastAction := "Бито! Раунд завершён" }
    let s4 ← checkWinner s3
    .ok (true, s4)

/-- `takeCards(playerId)` from `GameSession.ts`. -/
def takeCards (s : GameSession) (playerId : String) :
    Except Unit (Bool × GameSession) :=
  if s.phase ≠ .playing then .ok (false, s)
  else if s.defender ≠ some playerId then .ok (false, s)
  else if s.table.isEmpty then .ok (false, s)
  else do
    let cardsToTake := tableCards s.table
    let s1 ←
      match s.defender with
      | some d =>
        if d = "" then Except.ok s
        else
          match alLookup s.hands d with
          | none => Except.error ()
          | some h =>
            Except.ok { s with hands := alSet s.hands d (sortHand (h ++ cardsToTake) s.trumpSuit) }
      | none => Except.ok s
    let s2 := { s1 with table := [], canThrow := false }
    let s3 ← refillHands s2
    let s4 := { s3 with lastAction := playerId ++ " взял карты" }
    let s5 ← checkWinner s4
    .ok (true, s5)

end GameSession

namespace GameSession

/-- `none` when the option is `null`/`undefined` or the empty string
(JS truthiness on player-id fields). -/
def optPlayerOk (o : Option String) (players : List String) : Prop :=
  ∀ a, o = some a → a ∈ players

instance (o : Option String) (players : List String) :
    Decidable (optPlayerOk o players) := by
  unfold optPlayerOk
  cases o with
  | none => exact .isTrue (by simp)
  | some a =>
    exact decidable_of_iff (a ∈ players) (by simp)

/-- Basic sanity of a two-sided session: distinct, non-empty player ids,
a hand entry for every player, roles drawn from the players, and the two
roles distinct.  Every session reachable through the registry satisfies
this. -/
def WellFormed (s : GameSession) : Prop :=
  s.players.Nodup ∧
  "" ∉ s.players ∧
  (∀ p ∈ s.players, (alLookup s.hands p).isSome = true) ∧
  optPlayerOk s.attacker s.players ∧
  optPlayerOk s.defender s.players ∧
  (s.attacker = none ∨ s.attacker ≠ s.defender)

instance (s : GameSession) : Decidable s.WellFormed := by
  unfold WellFormed; infer_instance

end GameSession

theorem alLookup_alSet_self {β : Type} (l : List (String × β)) (k : String) (v : β) :
    alLookup (alSet l k v) k = some v := by
  induction l with
  | nil => simp [alSet, alLookup]
  | cons e rest ih =>
    obtain ⟨k', v'⟩ := e
    by_cases h : k' = k <;> simp [alSet, alLookup, h, ih]

theorem alLookup_alSet_ne {β : Type} (l : List (String × β)) (k p : String) (v : β)
    (h : p ≠ k) : alLookup (alSet l k v) p = alLookup l p := by
  have hk' : ¬ k = p := fun hh => h hh.symm
  induction l with
  | nil => simp [alSet, alLookup, hk']
  | cons e rest ih =>
    obtain ⟨k', v'⟩ := e
    by_cases hk : k' = k
    · subst hk
      simp [alSet, alLookup, hk']
    · simp only [alSet, if_neg hk, alLookup, ih]

theorem alLookup_alSet_isSome {β : Type} (l : List (String × β)) (k p : String) (v : β)
    (h : (alLookup l k).isSome = true) :
    (alLookup (alSet l k v) p).isSome = (alLookup l p).isSome := by
  by_cases hp : p = k
  · subst hp; simp [alLookup_alSet_self, h]
  · simp [alLookup_alSet_ne l k p v hp]

namespace GameSession

/-- Fields of the session that `refillFold` never writes. -/
theorem refillFold_frame :
    ∀ (l : List String) (s s' : GameSession), refillFold s l = .ok s' →
      s'.players = s.players ∧ s'.phase = s.phase ∧ s'.winner = s.winner ∧
      s'.attacker = s.attacker ∧ s'.defender = s.defender ∧ s'.table = s.table ∧
      s'.trumpSuit = s.trumpSuit ∧ s'.trumpCard = s.trumpCard ∧
      s'.canThrow = s.canThrow ∧ s'.lastAction = s.lastAction ∧
      s'.roomId = s.roomId ∧
      (∀ p, (alLookup s'.hands p).isSome = (alLookup s.hands p).isSome) := by
  intro l
  induction l with
  | nil =>
    intro s s' h
    simp only [refillFold] at h
    cases h
    simp
  | cons pid rest ih =>
    intro s s' h
    simp only [refillFold] at h
    cases hl : alLookup s.hands pid with
    | none => rw [hl] at h; cases h
    | some hand =>
      rw [hl] at h
      have := ih _ _ h
      simp only at this
      refine ⟨this.1, this.2.1, this.2.2.1, this.2.2.2.1, this.2.2.2.2.1,
        this.2.2.2.2.2.1, this.2.2.2.2.2.2.1, this.2.2.2.2.2.2.2.1,
        this.2.2.2.2.2.2.2.2.1, this.2.2.2.2.2.2.2.2.2.1,
        this.2.2.2.2.2.2.2.2.2.2.1, ?_⟩
      intro p
      rw [this.2.2.2.2.2.2.2.2.2.2.2 p]
      exact alLookup_alSet_isSome _ _ _ _ (by simp [hl])

/-- `refillFold` succeeds as soon as every processed player has a hand
entry. -/
theorem refillFold_isOk :
    ∀ (l : List String) (s : GameSession),
      (∀ p ∈ l, (alLookup s.hands p).isSome = true) →
      ∃ s', refillFold s l = .ok s' := by
  intro l
  induction l with
  | nil => intro s _; exact ⟨s, rfl⟩
  | cons pid rest ih =>
    intro s hall
    have hpid := hall pid (by simp)
    cases hl : alLookup s.hands pid with
    | none => rw [hl] at hpid; simp at hpid
    | some hand =>
      obtain ⟨s', hs'⟩ := ih
        { s with
          hands := alSet s.hands pid (sortHand (drawLoop hand s.deck s.deck.length).1 s.trumpSuit),
          deck := (drawLoop hand s.deck s.deck.length).2 }
        (by intro p hp
            have heq := alLookup_alSet_isSome s.hands pid p
              (sortHand (drawLoop hand s.deck s.deck.length).1 s.trumpSuit) (by simp [hl])
            simp only [heq]
            exact hall p (by simp [hp]))
      refine ⟨s', ?_⟩
      show refillFold s (pid :: rest) = .ok s'
      simp only [refillFold, hl]
      exact hs'

/-- Fields of the session that `refillHands` never writes; the trump
indicator is either kept or discarded. -/
theorem refillHands_frame (s s' : GameSession) (h : refillHands s = .ok s') :
    s'.players = s.players ∧ s'.phase = s.phase ∧ s'.winner = s.winner ∧
    s'.attacker = s.attacker ∧ s'.defender = s.defender ∧ s'.table = s.table ∧
    s'.trumpSuit = s.trumpSuit ∧
    (s'.trumpCard = s.trumpCard ∨ s'.trumpCard = none) ∧
    s'.canThrow = s.canThrow ∧ s'.lastAction = s.lastAction ∧
    s'.roomId = s.roomId ∧
    (∀ p, (alLookup s'.hands p).isSome = (alLookup s.hands p).isSome) := by
  simp only [refillHands, bind, Except.bind] at h
  cases hf : refillFold s (truthyList [s.attacker, s.defender]) with
  | error e => rw [hf] at h; cases h
  | ok s1 =>
    rw [hf] at h
    have h2 : (if s1.deck.isEmpty = true ∧ s1.trumpCard ≠ none then
        Except.ok { s1 with trumpCard := none } else Except.ok s1) = Except.ok s' := h
    have frame := refillFold_frame _ _ _ hf
    by_cases hcond : s1.deck.isEmpty = true ∧ s1.trumpCard ≠ none
    · rw [if_pos hcond] at h2
      cases h2
      exact ⟨frame.1, frame.2.1, frame.2.2.1, frame.2.2.2.1, frame.2.2.2.2.1,
        frame.2.2.2.2.2.1, frame.2.2.2.2.2.2.1, Or.inr rfl,
        frame.2.2.2.2.2.2.2.2.1, frame.2.2.2.2.2.2.2.2.2.1,
        frame.2.2.2.2.2.2.2.2.2.2.1, frame.2.2.2.2.2.2.2.2.2.2.2⟩
    · rw [if_neg hcond] at h2
      cases h2
      exact ⟨frame.1, frame.2.1, frame.2.2.1, frame.2.2.2.1, frame.2.2.2.2.1,
        frame.2.2.2.2.2.1, frame.2.2.2.2.2.2.1, Or.inl frame.2.2.2.2.2.2.2.1,
        frame.2.2.2.2.2.2.2.2.1, frame.2.2.2.2.2.2.2.2.2.1,
        frame.2.2.2.2.2.2.2.2.2.2.1, frame.2.2.2.2.2.2.2.2.2.2.2⟩

/-- Membership in the truthiness-filtered list comes from a `some`
element of the original. -/
theorem mem_truthyList :
    ∀ {l : List (Option String)} {p : String}, p ∈ truthyList l → some p ∈ l := by
  intro l
  induction l with
  | nil => intro p hp; simp [truthyList] at hp
  | cons o rest ih =>
    intro p hp
    cases o with
    | none =>
      simp only [truthyList, List.filterMap_cons] at hp
      exact List.mem_cons_of_mem _ (ih hp)
    | some x =>
      by_cases hx : x = ""
      · subst hx
        simp only [truthyList, List.filterMap_cons, if_pos rfl] at hp
        exact List.mem_cons_of_mem _ (ih hp)
      · simp only [truthyList, List.filterMap_cons, if_neg hx, List.mem_cons] at hp
        rcases hp with hp | hp
        · subst hp; exact List.mem_cons_self _ _
        · exact List.mem_cons_of_mem _ (ih hp)

/-- Under well-formedness every id the refill order can name has a hand. -/
theorem truthyList_hands (s : GameSession) (hwf : s.WellFormed) :
    ∀ p ∈ truthyList [s.attacker, s.defender], (alLookup s.hands p).isSome = true := by
  obtain ⟨-, -, hhands, hatt, hdef, -⟩ := hwf
  intro p hp
  apply hhands
  have hmem := mem_truthyList hp
  simp only [List.mem_cons, List.not_mem_nil, or_false] at hmem
  rcases hmem with hmem | hmem
  · exact hatt p hmem.symm
  · exact hdef p hmem.symm

theorem refillHands_isOk (s : GameSession) (hwf : s.WellFormed) :
    ∃ s', refillHands s = .ok s' := by
  obtain ⟨s1, hs1⟩ := refillFold_isOk _ s (truthyList_hands s hwf)
  refine ⟨if s1.deck.isEmpty ∧ s1.trumpCard ≠ none then { s1 with trumpCard := none } else s1, ?_⟩
  simp only [refillHands, bind, Except.bind, hs1]
  split <;> rfl

end GameSession

namespace GameSession

/-- Fields of the session that `checkWinnerGo` never writes (it only
updates `winner`, `phase` and `lastAction`). -/
theorem checkWinnerGo_frame :
    ∀ (l : List String) (s s' : GameSession), checkWinnerGo s l = .ok s' →
      s'.players = s.players ∧ s'.hands = s.hands ∧ s'.deck = s.deck ∧
      s'.trumpCard = s.trumpCard ∧ s'.trumpSuit = s.trumpSuit ∧ s'.table = s.table ∧
      s'.attacker = s.attacker ∧ s'.defender = s.defender ∧
      s'.canThrow = s.canThrow ∧ s'.roomId = s.roomId := by
  intro l
  induction l with
  | nil =>
    intro s s' h
    simp only [checkWinnerGo] at h
    cases h
    simp
  | cons pid rest ih =>
    intro s s' h
    simp only [checkWinnerGo] at h
    split at h
    · cases h
    · split at h
      · split at h
        · split at h
          · cases h
          · split at h
            · simpa using ih _ _ h
            · exact ih _ _ h
        · exact ih _ _ h
      · exact ih _ _ h

/-- `checkWinnerGo` succeeds whenever every player named in the loop and
in the player list has a hand entry. -/
theorem checkWinnerGo_isOk :
    ∀ (l : List String) (s : GameSession),
      (∀ p ∈ l, (alLookup s.hands p).isSome = true) →
      (∀ p ∈ s.players, (alLookup s.hands p).isSome = true) →
      ∃ s', checkWinnerGo s l = .ok s' := by
  intro l
  induction l with
  | nil => exact fun s _ _ => ⟨s, rfl⟩
  | cons pid rest ih =>
    intro s hl hp
    have hpid := hl pid (by simp)
    have hrest : ∀ p ∈ rest, (alLookup s.hands p).isSome = true :=
      fun p hp' => hl p (List.mem_cons_of_mem _ hp')
    cases hlk : alLookup s.hands pid with
    | none => simp [hlk] at hpid
    | some hd =>
      by_cases hz : hd.length = 0
      · cases hfind : s.players.find? (fun p => ¬ p = pid) with
        | none =>
          obtain ⟨s', hs'⟩ := ih s hrest hp
          exact ⟨s', by simp only [checkWinnerGo, hlk, if_pos hz, hfind]; exact hs'⟩
        | some opp =>
          have hopp := hp opp (List.mem_of_find?_eq_some hfind)
          cases hlo : alLookup s.hands opp with
          | none => simp [hlo] at hopp
          | some ho =>
            by_cases hho : ho.length > 0
            · obtain ⟨s', hs'⟩ := ih
                { s with winner := some pid, phase := .finished,
                         lastAction := pid ++ " победил!" } hrest hp
              exact ⟨s',
                by simp only [checkWinnerGo, hlk, if_pos hz, hfind, hlo, if_pos hho]; exact hs'⟩
            · obtain ⟨s', hs'⟩ := ih s hrest hp
              exact ⟨s',
                by simp only [checkWinnerGo, hlk, if_pos hz, hfind, hlo, if_neg hho]; exact hs'⟩
      · obtain ⟨s', hs'⟩ := ih s hrest hp
        exact ⟨s', by simp only [checkWinnerGo, hlk, if_neg hz]; exact hs'⟩

/-- Fields `checkWinner` never writes. -/
theorem checkWinner_frame (s s' : GameSession) (h : checkWinner s = .ok s') :
    s'.players = s.players ∧ s'.hands = s.hands ∧ s'.deck = s.deck ∧
    s'.trumpCard = s.trumpCard ∧ s'.trumpSuit = s.trumpSuit ∧ s'.table = s.table ∧
    s'.attacker = s.attacker ∧ s'.defender = s.defender ∧
    s'.canThrow = s.canThrow ∧ s'.roomId = s.roomId := by
  unfold checkWinner at h
  by_cases hc : s.deck.length = 0 ∧ s.trumpCard = none
  · rw [if_pos hc] at h
    exact checkWinnerGo_frame _ _ _ h
  · rw [if_neg hc] at h
    cases h
    simp

theorem checkWinner_isOk (s : GameSession)
    (hp : ∀ p ∈ s.players, (alLookup s.hands p).isSome = true) :
    ∃ s', checkWinner s = .ok s' := by
  unfold checkWinner
  by_cases hc : s.deck.length = 0 ∧ s.trumpCard = none
  · rw [if_pos hc]
    exact checkWinnerGo_isOk _ s hp hp
  · rw [if_neg hc]
    exact ⟨s, rfl⟩

/-- Anatomy of a successful `passTurn`: the three preconditions held, and
the result is the round-closing pipeline applied to `s`. -/
theorem passTurn_success (s : GameSession) (pid : String) (s' : GameSession)
    (h : passTurn s pid = .ok (true, s')) :
    s.phase = .playing ∧ s.attacker = some pid ∧
    (s.table.all fun p => p.defense ≠ none) = true ∧
    ∃ s2, refillHands { s with table := [], canThrow := false } = .ok s2 ∧
      checkWinner { s2 with attacker := s2.defender, defender := s2.attacker,
                            lastAction := "Бито! Раунд завершён" } = .ok s' := by
  unfold passTurn at h
  split at h
  · exact absurd h (by simp)
  next h1 =>
  split at h
  · exact absurd h (by simp)
  next h2 =>
  split at h
  · exact absurd h (by simp)
  next h3 =>
  simp only [bind, Except.bind] at h
  split at h
  · cases h
  next s2 hf =>
  split at h
  · cases h
  next s4 hcw =>
  cases h
  exact ⟨not_not.mp h1, not_not.mp h2, not_not.mp h3, s2, hf, hcw⟩

/-- `passTurn` succeeds whenever its three preconditions hold (on a
well-formed session the internal refill and win check cannot throw). -/
theorem passTurn_ok_of (s : GameSession) (pid : String) (hwf : s.WellFormed)
    (hph : s.phase = .playing) (hatt : s.attacker = some pid)
    (hdef : (s.table.all fun p => p.defense ≠ none) = true) :
    ∃ s', passTurn s pid = .ok (true, s') := by
  have hwf1 : WellFormed { s with table := ([] : List CardPair), canThrow := false } := hwf
  obtain ⟨s2, hs2⟩ := refillHands_isOk _ hwf1
  have hframe := refillHands_frame _ _ hs2
  dsimp only at hframe
  have hp3 : ∀ p ∈ s2.players, (alLookup s2.hands p).isSome = true := by
    intro p hp
    rw [hframe.2.2.2.2.2.2.2.2.2.2.2 p]
    exact hwf.2.2.1 p (hframe.1 ▸ hp)
  obtain ⟨s4, hs4⟩ := checkWinner_isOk
    { s2 with attacker := s2.defender, defender := s2.attacker,
              lastAction := "Бито! Раунд завершён" } hp3
  refine ⟨s4, ?_⟩
  unfold passTurn
  rw [if_neg (by simp [hph]), if_neg (by simp [hatt]),
    if_neg (by simp only [not_not]; exact hdef)]
  simp only [bind, Except.bind, hs2, hs4]

end GameSession

namespace GameSession

/-- Net effect of a successful `passTurn` on table and roles. -/
theorem passTurn_effects (s : GameSession) (pid : String) (s' : GameSession)
    (h : passTurn s pid = .ok (true, s')) :
    s'.table = [] ∧ s'.attacker = s.defender ∧ s'.defender = s.attacker := by
  obtain ⟨-, -, -, s2, hs2, hcw⟩ := passTurn_success s pid s' h
  have hrf := refillHands_frame _ _ hs2
  dsimp only at hrf
  have hcf := checkWinner_frame _ _ hcw
  dsimp only at hcf
  refine ⟨?_, ?_, ?_⟩
  · rw [hcf.2.2.2.2.2.1]; exact hrf.2.2.2.2.2.1
  · rw [hcf.2.2.2.2.2.2.1]; exact hrf.2.2.2.2.1
  · rw [hcf.2.2.2.2.2.2.2.1]; exact hrf.2.2.2.1

end GameSession

/-- The thirteen cards already out of the deck in the demo position:
five clubs in hand A, five diamonds in hand B, the defended pair 7♠/8♠ on
the table, and the trump indicator 6♥. -/
def usedDemo : List Card :=
  [⟨.r9, .c⟩, ⟨.r10, .c⟩, ⟨.J, .c⟩, ⟨.Q, .c⟩, ⟨.K, .c⟩,
   ⟨.r9, .d⟩, ⟨.r10, .d⟩, ⟨.J, .d⟩, ⟨.Q, .d⟩, ⟨.K, .d⟩,
   ⟨.r7, .s⟩, ⟨.r8, .s⟩, ⟨.r6, .h⟩]

/-- The 23 cards still in the deck in the demo position. -/
def deckDemo : List Card := generateDeck.filter fun c => c ∉ usedDemo

/-- A well-formed mid-round position: hearts are trump, one defended pair
on the table, five cards in each hand, 23 in the deck, indicator present
(23 + 1 + 5 + 5 + 2 = 36 cards in play). -/
def sDemo : GameSession :=
  { roomId := "DEMO01", players := ["A", "B"],
    hands := [("A", [⟨.r9, .c⟩, ⟨.r10, .c⟩, ⟨.J, .c⟩, ⟨.Q, .c⟩, ⟨.K, .c⟩]),
              ("B", [⟨.r9, .d⟩, ⟨.r10, .d⟩, ⟨.J, .d⟩, ⟨.Q, .d⟩, ⟨.K, .d⟩])],
    deck := deckDemo, trumpCard := some ⟨.r6, .h⟩, trumpSuit := some .h,
    table := [⟨⟨.r7, .s⟩, some ⟨.r8, .s⟩⟩], attacker := some "A", defender := some "B",
    phase := .playing, winner := none, canThrow := true,
    lastAction := "B защищается картой 8s" }

/-- The state produced by `passTurn sDemo "A"` (computed by evaluation):
table discarded, each hand refilled to six, roles swapped. -/
def sDemoPass : GameSession :=
  { roomId := "DEMO01", players := ["A", "B"],
    hands := [("A", [⟨.r9, .c⟩, ⟨.r10, .c⟩, ⟨.J, .c⟩, ⟨.Q, .c⟩, ⟨.K, .c⟩, ⟨.A, .s⟩]),
              ("B", [⟨.r9, .d⟩, ⟨.r10, .d⟩, ⟨.J, .d⟩, ⟨.Q, .d⟩, ⟨.K, .d⟩, ⟨.K, .s⟩])],
    deck := [⟨.r7, .h⟩, ⟨.r8, .h⟩, ⟨.r9, .h⟩, ⟨.r10, .h⟩, ⟨.J, .h⟩, ⟨.Q, .h⟩,
             ⟨.K, .h⟩, ⟨.A, .h⟩, ⟨.r6, .d⟩, ⟨.r7, .d⟩, ⟨.r8, .d⟩, ⟨.A, .d⟩,
             ⟨.r6, .c⟩, ⟨.r7, .c⟩, ⟨.r8, .c⟩, ⟨.A, .c⟩, ⟨.r6, .s⟩, ⟨.r9, .s⟩,
             ⟨.r10, .s⟩, ⟨.J, .s⟩, ⟨.Q, .s⟩],
    trumpCard := some ⟨.r6, .h⟩, trumpSuit := some .h,
    table := [], attacker := some "B", defender := some "A",
    phase := .playing, winner := none, canThrow := false,
    lastAction := "Бито! Раунд завершён" }

example : GameSession.passTurn sDemo "A" = .ok (true, sDemoPass) := by decide

/-- C5: `passTurn` succeeds only when called by the current attacker in
`playing` phase with every table pair defended; after a successful
`passTurn` the table is empty and the attacker/defender roles are
swapped (the former defender is the new attacker). -/
theorem C5_passTurn_roles_swap (s : GameSession) (pid : String) (s' : GameSession)
    (h : GameSession.passTurn s pid = .ok (true, s')) :
    (s.phase = .playing ∧ s.attacker = some pid ∧ ∀ p ∈ s.table, p.defense ≠ none) ∧
    s'.table = [] ∧ s'.attacker = s.defender ∧ s'.defender = s.attacker := by
  obtain ⟨h1, h2, h3, -⟩ := GameSession.passTurn_success s pid s' h
  have he := GameSession.passTurn_effects s pid s' h
  exact ⟨⟨h1, h2, by simpa using h3⟩, he.1, he.2.1, he.2.2⟩

/-- Witness for C5 at the demo position. -/
theorem C5_passTurn_roles_swap_witness :
    (sDemo.phase = .playing ∧ sDemo.attacker = some "A" ∧
      ∀ p ∈ sDemo.table, p.defense ≠ none) ∧
    sDemoPass.table = [] ∧ sDemoPass.attacker = sDemo.defender ∧
    sDemoPass.defender = sDemo.attacker :=
  C5_passTurn_roles_swap sDemo "A" sDemoPass (by decide)

/-- C10: with an empty table the all-pairs-defended condition holds
vacuously, so a `passTurn` by the current attacker in `playing` phase
succeeds, ending a round in which no card was played, with the usual
refill, role swap and win check. -/
theorem C10_passTurn_empty_table (s : GameSession) (pid : String)
    (hwf : s.WellFormed) (hph : s.phase = .playing)
    (hatt : s.attacker = some pid) (htab : s.table = []) :
    ∃ s', GameSession.passTurn s pid = .ok (true, s') ∧ s'.table = [] ∧
      s'.attacker = s.defender ∧ s'.defender = s.attacker := by
  obtain ⟨s', hs'⟩ := GameSession.passTurn_ok_of s pid hwf hph hatt (by simp [htab])
  have he := GameSession.passTurn_effects s pid s' hs'
  exact ⟨s', hs', he.1, he.2.1, he.2.2⟩

/-- The demo position with a cleared table (as at the start of a round). -/
def sDemoEmptyTable : GameSession :=
  { sDemo with table := [], canThrow := false, lastAction := "Игра началась!" }

/-- Witness for C10 at the demo position with an empty table. -/
theorem C10_passTurn_empty_table_witness :
    ∃ s', GameSession.passTurn sDemoEmptyTable "A" = .ok (true, s') ∧ s'.table = [] ∧
      s'.attacker = sDemoEmptyTable.defender ∧ s'.defender = sDemoEmptyTable.attacker :=
  C10_passTurn_empty_table sDemoEmptyTable "A" (by decide) rfl rfl rfl

namespace GameSession

/-- C7: `throwIn` is rejected — returning `false` with the state exactly
unchanged — whenever the defender's current hand size does not strictly
exceed the number of currently undefended pairs on the table.  (The
hypotheses give the actor a hand entry and name the computed defender
hand size, ruling out the `TypeError` paths.) -/
theorem C7_throwIn_capacity (s : GameSession) (pid : String) (card : Card) (n : Nat)
    (hpid : (alLookup s.hands pid).isSome = true)
    (hn : defenderHandSize s = .ok n)
    (hcap : n ≤ (s.table.filter fun p => p.defense = none).length) :
    throwIn s pid card = .ok (false, s) := by
  unfold throwIn
  split
  · rfl
  split
  · rfl
  split
  · next heq => rw [heq] at hpid; simp at hpid
  next hand heq =>
    split
    · rfl
    split
    · rfl
    split
    · next hdh => rw [hn] at hdh; cases hdh
    next m hdh =>
      have hm : m = n := by rw [hn] at hdh; cases hdh; rfl
      subst hm
      split
      · rfl
      · next hgt => exact absurd hcap hgt

end GameSession

/-- A position in which hearts are trump, the defender `B` holds a single
card and one undefended pair sits on the table: a further throw-in
(7♦, matching the table rank) must be rejected by the capacity rule. -/
def sCap : GameSession :=
  { roomId := "CAP001", players := ["A", "B"],
    hands := [("A", [⟨.r7, .d⟩, ⟨.r9, .c⟩]), ("B", [⟨.A, .h⟩])],
    deck := [], trumpCard := none, trumpSuit := some .h,
    table := [⟨⟨.r7, .s⟩, none⟩], attacker := some "A", defender := some "B",
    phase := .playing, winner := none, canThrow := true,
    lastAction := "" }

/-- Witness for C7: defender hand size 1, one undefended pair — the
throw-in is rejected and the state is returned unchanged. -/
theorem C7_throwIn_capacity_witness :
    GameSession.throwIn sCap "A" ⟨.r7, .d⟩ = .ok (false, sCap) :=
  GameSession.C7_throwIn_capacity sCap "A" ⟨.r7, .d⟩ 1 (by decide) (by decide) (by decide)

namespace GameSession

/-- A hand already holding six cards draws nothing. -/
theorem drawLoop_of_six (hand deck : List Card) (fuel : Nat)
    (h : ¬ hand.length < 6) : drawLoop hand deck fuel = (hand, deck) := by
  cases fuel with
  | zero => rfl
  | succ n => simp [drawLoop, h]

/-- Nothing can be drawn from an empty deck. -/
theorem drawLoop_nil_deck (hand : List Card) (fuel : Nat) :
    drawLoop hand [] fuel = (hand, []) := by
  cases fuel with
  | zero => rfl
  | succ n => simp [drawLoop]

/-- A player whose hand is already full (or whose deck is exhausted)
keeps exactly as many cards through the refill loop: the hand is only
re-sorted. -/
theorem refillFold_hand_length :
    ∀ (l : List String) (s s' : GameSession), refillFold s l = .ok s' →
      ∀ (p : String) (h0 : List Card), alLookup s.hands p = some h0 →
        (6 ≤ h0.length ∨ s.deck = []) →
        ∃ h1, alLookup s'.hands p = some h1 ∧ h1.length = h0.length := by
  intro l
  induction l with
  | nil =>
    intro s s' h p h0 hl hc
    simp only [refillFold] at h
    cases h
    exact ⟨h0, hl, rfl⟩
  | cons pid rest ih =>
    intro s s' h p h0 hl hc
    simp only [refillFold] at h
    cases hlk : alLookup s.hands pid with
    | none => rw [hlk] at h; cases h
    | some hand =>
      simp only [hlk] at h
      by_cases hpp : p = pid
      · subst hpp
        have hh0 : hand = h0 := by rw [hlk] at hl; cases hl; rfl
        subst hh0
        have hdl : drawLoop hand s.deck s.deck.length = (hand, s.deck) := by
          rcases hc with hc | hc
          · exact drawLoop_of_six hand s.deck s.deck.length (by omega)
          · rw [hc]; exact drawLoop_nil_deck hand _
        simp only [hdl] at h
        obtain ⟨h1, hh1, hlen⟩ := ih _ _ h p (sortHand hand s.trumpSuit)
          (by simpa using alLookup_alSet_self s.hands p (sortHand hand s.trumpSuit))
          (by rcases hc with hc | hc
              · exact Or.inl (by rw [sortHand_length]; exact hc)
              · exact Or.inr hc)
        exact ⟨h1, hh1, by rw [hlen, sortHand_length]⟩
      · obtain ⟨h1, hh1, hlen⟩ := ih _ _ h p h0
          (by simpa [alLookup_alSet_ne s.hands pid p _ hpp] using hl)
          (by rcases hc with hc | hc
              · exact Or.inl hc
              · refine Or.inr ?_
                show (drawLoop hand s.deck s.deck.length).2 = []
                rw [hc, drawLoop_nil_deck])
        exact ⟨h1, hh1, hlen⟩

/-- Hand-length preservation through `refillHands` for a full hand or an
exhausted deck. -/
theorem refillHands_hand_length (s s' : GameSession) (h : refillHands s = .ok s')
    (p : String) (h0 : List Card) (hl : alLookup s.hands p = some h0)
    (hc : 6 ≤ h0.length ∨ s.deck = []) :
    ∃ h1, alLookup s'.hands p = some h1 ∧ h1.length = h0.length := by
  simp only [refillHands, bind, Except.bind] at h
  split at h
  · cases h
  next s1 hf =>
    obtain ⟨h1, hh1, hlen⟩ := refillFold_hand_length _ _ _ hf p h0 hl hc
    split at h <;> cases h <;> exact ⟨h1, hh1, hlen⟩

end GameSession

namespace GameSession

/-- C6: after a successful `takeCards` by the defender the roles are
unchanged, the table is empty, and the defender's hand has grown by
exactly the number of cards (attack and defense sides) that were on the
table.  The last hypothesis — the defender's hand plus the table reach
six cards, or the deck is empty — holds in every reachable round (a
defender starts a round with at least six cards unless the deck is
exhausted) and pins down that the subsequent refill deals the defender
nothing. -/
theorem C6_takeCards_no_swap (s : GameSession) (pid : String) (s' : GameSession)
    (handB : List Card)
    (h : takeCards s pid = .ok (true, s'))
    (hne : pid ≠ "") (hhand : alLookup s.hands pid = some handB)
    (hbig : 6 ≤ handB.length + tableCount s.table ∨ s.deck = []) :
    s'.attacker = s.attacker ∧ s'.defender = s.defender ∧ s'.table = [] ∧
    ∃ handB2, alLookup s'.hands pid = some handB2 ∧
      handB2.length = handB.length + tableCount s.table := by
  unfold takeCards at h
  split at h
  · exact absurd h (by simp)
  next h1 =>
  split at h
  · exact absurd h (by simp)
  next h2 =>
  split at h
  · exact absurd h (by simp)
  next h3 =>
  have hdef : s.defender = some pid := not_not.mp h2
  simp only [bind, Except.bind, hdef, if_neg hne, hhand] at h
  split at h
  · cases h
  next s3 hs3 =>
  split at h
  · cases h
  next s5 hcw =>
  cases h
  have hrf := refillHands_frame _ _ hs3
  dsimp only at hrf
  have hcf := checkWinner_frame _ _ hcw
  dsimp only at hcf
  have hsl : alLookup (alSet s.hands pid (sortHand (handB ++ tableCards s.table) s.trumpSuit))
      pid = some (sortHand (handB ++ tableCards s.table) s.trumpSuit) :=
    alLookup_alSet_self _ _ _
  have hcond : 6 ≤ (sortHand (handB ++ tableCards s.table) s.trumpSuit).length ∨ s.deck = [] := by
    rcases hbig with hb | hb
    · exact Or.inl (by rw [sortHand_length, List.length_append]; exact hb)
    · exact Or.inr hb
  obtain ⟨h1', hh1, hlen⟩ := refillHands_hand_length _ _ hs3 pid
    (sortHand (handB ++ tableCards s.table) s.trumpSuit) hsl hcond
  refine ⟨?_, ?_, ?_, h1', ?_, ?_⟩
  · rw [hcf.2.2.2.2.2.2.1]; exact hrf.2.2.2.1
  · rw [hcf.2.2.2.2.2.2.2.1, hdef]; exact hrf.2.2.2.2.1
  · rw [hcf.2.2.2.2.2.1]; exact hrf.2.2.2.2.2.1
  · rw [hcf.2.1]; exact hh1
  · rw [hlen, sortHand_length, List.length_append]; rfl

end GameSession

/-- The state produced by `takeCards sDemo "B"` (computed by evaluation):
the defender keeps the whole table, the attacker refills to six, the
roles stay as they were. -/
def sDemoTake : GameSession :=
  { roomId := "DEMO01", players := ["A", "B"],
    hands := [("A", [⟨.r9, .c⟩, ⟨.r10, .c⟩, ⟨.J, .c⟩, ⟨.Q, .c⟩, ⟨.K, .c⟩, ⟨.A, .s⟩]),
              ("B", [⟨.r9, .d⟩, ⟨.r10, .d⟩, ⟨.J, .d⟩, ⟨.Q, .d⟩, ⟨.K, .d⟩,
                     ⟨.r7, .s⟩, ⟨.r8, .s⟩])],
    deck := [⟨.r7, .h⟩, ⟨.r8, .h⟩, ⟨.r9, .h⟩, ⟨.r10, .h⟩, ⟨.J, .h⟩, ⟨.Q, .h⟩,
             ⟨.K, .h⟩, ⟨.A, .h⟩, ⟨.r6, .d⟩, ⟨.r7, .d⟩, ⟨.r8, .d⟩, ⟨.A, .d⟩,
             ⟨.r6, .c⟩, ⟨.r7, .c⟩, ⟨.r8, .c⟩, ⟨.A, .c⟩, ⟨.r6, .s⟩, ⟨.r9, .s⟩,
             ⟨.r10, .s⟩, ⟨.J, .s⟩, ⟨.Q, .s⟩, ⟨.K, .s⟩],
    trumpCard := some ⟨.r6, .h⟩, trumpSuit := some .h,
    table := [], attacker := some "A", defender := some "B",
    phase := .playing, winner := none, canThrow := false,
    lastAction := "B взял карты" }

example : GameSession.takeCards sDemo "B" = .ok (true, sDemoTake) := by decide

/-- Witness for C6 at the demo position: the defender takes the two table
cards, five grows to seven, roles and table as claimed. -/
theorem C6_takeCards_no_swap_witness :
    sDemoTake.attacker = sDemo.attacker ∧ sDemoTake.defender = sDemo.defender ∧
    sDemoTake.table = [] ∧
    ∃ handB2, alLookup sDemoTake.hands "B" = some handB2 ∧
      handB2.length = [Card.mk .r9 .d, ⟨.r10, .d⟩, ⟨.J, .d⟩, ⟨.Q, .d⟩, ⟨.K, .d⟩].length +
        GameSession.tableCount sDemo.table :=
  GameSession.C6_takeCards_no_swap sDemo "B" sDemoTake
    [⟨.r9, .d⟩, ⟨.r10, .d⟩, ⟨.J, .d⟩, ⟨.Q, .d⟩, ⟨.K, .d⟩]
    (by decide) (by decide) (by decide) (by decide)

theorem find?_pair_snd (a b : String) (hba : ¬ b = a) :
    List.find? (fun p => ¬ p = a) [a, b] = some b := by
  simp [hba]

theorem find?_pair_fst (a b : String) (hab : ¬ a = b) :
    List.find? (fun p => ¬ p = b) [a, b] = some a := by
  simp [hab]

namespace GameSession

/-- One `checkWinner` loop step in which `pid` has an empty hand and the
found opponent a non-empty one: the winner is recorded. -/
theorem checkWinnerGo_step_win (s : GameSession) (pid : String) (rest : List String)
    (hd ho : List Card) (opp : String)
    (hlk : alLookup s.hands pid = some hd) (hz : hd.length = 0)
    (hfind : s.players.find? (fun p => ¬ p = pid) = some opp)
    (hlo : alLookup s.hands opp = some ho) (hho : ho.length > 0) :
    checkWinnerGo s (pid :: rest) =
      checkWinnerGo { s with winner := some pid, phase := .finished,
                             lastAction := pid ++ " победил!" } rest := by
  simp only [checkWinnerGo, hlk, if_pos hz, hfind, hlo, if_pos hho]

/-- One `checkWinner` loop step in which `pid` still holds cards. -/
theorem checkWinnerGo_step_skip_full (s : GameSession) (pid : String) (rest : List String)
    (hd : List Card) (hlk : alLookup s.hands pid = some hd) (hz : ¬ hd.length = 0) :
    checkWinnerGo s (pid :: rest) = checkWinnerGo s rest := by
  simp only [checkWinnerGo, hlk, if_neg hz]

/-- One `checkWinner` loop step in which `pid` and the found opponent
both have empty hands: nothing is recorded. -/
theorem checkWinnerGo_step_skip_empty (s : GameSession) (pid : String) (rest : List String)
    (hd ho : List Card) (opp : String)
    (hlk : alLookup s.hands pid = some hd) (hz : hd.length = 0)
    (hfind : s.players.find? (fun p => ¬ p = pid) = some opp)
    (hlo : alLookup s.hands opp = some ho) (hho : ¬ ho.length > 0) :
    checkWinnerGo s (pid :: rest) = checkWinnerGo s rest := by
  simp only [checkWinnerGo, hlk, if_pos hz, hfind, hlo, if_neg hho]

/-- Full behaviour of `checkWinner` on a two-player session with an empty
deck and no trump indicator: an empty-handed player with a non-empty
opponent is declared winner; two empty (or two non-empty) hands change
nothing. -/
theorem checkWinner_two (s : GameSession) (a b : String) (hA hB : List Card)
    (hab : a ≠ b) (hpl : s.players = [a, b])
    (ha : alLookup s.hands a = some hA) (hb : alLookup s.hands b = some hB)
    (hdeck : s.deck = []) (htr : s.trumpCard = none) :
    (hA = [] ∧ hB ≠ [] →
      checkWinner s = .ok { s with winner := some a, phase := .finished,
                                   lastAction := a ++ " победил!" }) ∧
    (hB = [] ∧ hA ≠ [] →
      checkWinner s = .ok { s with winner := some b, phase := .finished,
                                   lastAction := b ++ " победил!" }) ∧
    (hA = [] ∧ hB = [] → checkWinner s = .ok s) := by
  have hcond : s.deck.length = 0 ∧ s.trumpCard = none := ⟨by rw [hdeck]; rfl, htr⟩
  have hfa : s.players.find? (fun p => ¬ p = a) = some b := by
    rw [hpl]; exact find?_pair_snd a b fun h => hab h.symm
  have hfb : s.players.find? (fun p => ¬ p = b) = some a := by
    rw [hpl]; exact find?_pair_fst a b hab
  refine ⟨?_, ?_, ?_⟩
  · rintro ⟨hA0, hB0⟩
    subst hA0
    have hBlen : hB.length > 0 := List.length_pos.mpr hB0
    have hb1 : alLookup (GameSession.mk s.roomId s.players s.hands s.deck s.trumpCard
        s.trumpSuit s.table s.attacker s.defender Phase.finished (some a) s.canThrow
        (a ++ " победил!")).hands b = some hB := hb
    unfold checkWinner
    rw [if_pos hcond, hpl,
      checkWinnerGo_step_win s a [b] [] hB b ha rfl hfa hb hBlen,
      checkWinnerGo_step_skip_full _ b [] hB hb1 (by omega)]
    simp only [checkWinnerGo]
    rw [hpl]
  · rintro ⟨hB0, hA0⟩
    subst hB0
    have hAlen : hA.length > 0 := List.length_pos.mpr hA0
    unfold checkWinner
    rw [if_pos hcond, hpl,
      checkWinnerGo_step_skip_full s a [b] hA ha (by omega),
      checkWinnerGo_step_win s b [] [] hA a hb rfl hfb ha hAlen]
    simp only [checkWinnerGo]
    rw [hpl]
  · rintro ⟨hA0, hB0⟩
    subst hA0; subst hB0
    unfold checkWinner
    rw [if_pos hcond, hpl,
      checkWinnerGo_step_skip_empty s a [b] [] [] b ha rfl hfa hb (by simp),
      checkWinnerGo_step_skip_empty s b [] [] [] a hb rfl hfb ha (by simp)]
    simp only [checkWinnerGo]

/-- Anatomy of a successful `takeCards`: the preconditions held, and the
result is `checkWinner` applied to a state agreeing with `s` on players,
winner and phase. -/
theorem takeCards_success (s : GameSession) (pid : String) (s' : GameSession)
    (h : takeCards s pid = .ok (true, s')) :
    s.phase = .playing ∧ s.defender = some pid ∧
    ∃ pre, checkWinner pre = .ok s' ∧ pre.players = s.players ∧
      pre.winner = s.winner ∧ pre.phase = s.phase := by
  unfold takeCards at h
  split at h
  · exact absurd h (by simp)
  next h1 =>
  split at h
  · exact absurd h (by simp)
  next h2 =>
  split at h
  · exact absurd h (by simp)
  next h3 =>
  have hdef : s.defender = some pid := not_not.mp h2
  by_cases hpe : pid = ""
  · simp only [bind, Except.bind, hdef, if_pos hpe] at h
    split at h
    · cases h
    next s3 hs3 =>
    split at h
    · cases h
    next s5 hcw =>
    cases h
    have hrf := refillHands_frame _ _ hs3
    dsimp only at hrf
    exact ⟨not_not.mp h1, hdef, _, hcw, hrf.1, hrf.2.2.1, hrf.2.1⟩
  · cases hlk : alLookup s.hands pid with
    | none =>
      simp only [bind, Except.bind, hdef, if_neg hpe, hlk] at h
      cases h
    | some hb =>
      simp only [bind, Except.bind, hdef, if_neg hpe, hlk] at h
      split at h
      · cases h
      next s3 hs3 =>
      split at h
      · cases h
      next s5 hcw =>
      cases h
      have hrf := refillHands_frame _ _ hs3
      dsimp only at hrf
      exact ⟨not_not.mp h1, hdef, _, hcw, hrf.1, hrf.2.2.1, hrf.2.1⟩

/-- Both round-closing moves end in `checkWinner` applied to a state that
agrees with the original on players, winner and phase. -/
theorem move_checkWinner_pre (s : GameSession) (pid : String) (s' : GameSession)
    (hop : passTurn s pid = .ok (true, s') ∨ takeCards s pid = .ok (true, s')) :
    s.phase = .playing ∧
    ∃ pre, checkWinner pre = .ok s' ∧ pre.players = s.players ∧
      pre.winner = s.winner ∧ pre.phase = s.phase := by
  rcases hop with hop | hop
  · obtain ⟨hph, -, -, s2, hs2, hcw⟩ := passTurn_success s pid s' hop
    have hrf := refillHands_frame _ _ hs2
    dsimp only at hrf
    refine ⟨hph, _, hcw, ?_, ?_, ?_⟩
    · show s2.players = s.players
      exact hrf.1
    · show s2.winner = s.winner
      exact hrf.2.2.1
    · show s2.phase = s.phase
      exact hrf.2.1
  · obtain ⟨hph, -, pre, hcw, hp, hw, hph3⟩ := takeCards_success s pid s' hop
    exact ⟨hph, pre, hcw, hp, hw, hph3⟩

end GameSession

/-- C4: after every successful Pass or Take, if the resulting deck is
empty and no trump indicator remains outstanding, then an empty-handed
player whose opponent still holds cards is declared winner and the phase
becomes `finished`; if both hands are empty simultaneously, no winner is
declared (the winner field keeps its pre-move value) and the phase stays
`playing`. -/
theorem C4_win_check (s : GameSession) (pid a b : String) (s' : GameSession)
    (hA hB : List Card) (hab : a ≠ b) (hpl : s.players = [a, b])
    (hop : GameSession.passTurn s pid = .ok (true, s') ∨
           GameSession.takeCards s pid = .ok (true, s'))
    (hdeck : s'.deck = []) (htr : s'.trumpCard = none)
    (ha : alLookup s'.hands a = some hA) (hb : alLookup s'.hands b = some hB) :
    (hA = [] ∧ hB ≠ [] → s'.winner = some a ∧ s'.phase = .finished) ∧
    (hB = [] ∧ hA ≠ [] → s'.winner = some b ∧ s'.phase = .finished) ∧
    (hA = [] ∧ hB = [] → s'.winner = s.winner ∧ s'.phase = .playing) := by
  obtain ⟨hph, pre, hcw, hppl, hpw, hpph⟩ := GameSession.move_checkWinner_pre s pid s' hop
  have hcf := GameSession.checkWinner_frame _ _ hcw
  have hpre_deck : pre.deck = [] := by rw [← hcf.2.2.1]; exact hdeck
  have hpre_tr : pre.trumpCard = none := by rw [← hcf.2.2.2.1]; exact htr
  have hpre_a : alLookup pre.hands a = some hA := by rw [← hcf.2.1]; exact ha
  have hpre_b : alLookup pre.hands b = some hB := by rw [← hcf.2.1]; exact hb
  have hbeh := GameSession.checkWinner_two pre a b hA hB hab (by rw [hppl, hpl])
    hpre_a hpre_b hpre_deck hpre_tr
  refine ⟨?_, ?_, ?_⟩
  · intro hc
    have hx := (hbeh.1 hc).symm.trans hcw
    cases hx
    exact ⟨rfl, rfl⟩
  · intro hc
    have hx := (hbeh.2.1 hc).symm.trans hcw
    cases hx
    exact ⟨rfl, rfl⟩
  · intro hc
    have hx := (hbeh.2.2 hc).symm.trans hcw
    cases hx
    exact ⟨hpw, by rw [hpph]; exact hph⟩

/-- Endgame position: deck exhausted, trump indicator gone, attacker `A`
with an empty hand about to pass a fully defended table. -/
def sEnd : GameSession :=
  { roomId := "END001", players := ["A", "B"],
    hands := [("A", []), ("B", [⟨.K, .s⟩])],
    deck := [], trumpCard := none, trumpSuit := some .h,
    table := [⟨⟨.r7, .c⟩, some ⟨.r8, .c⟩⟩], attacker := some "A", defender := some "B",
    phase := .playing, winner := none, canThrow := false,
    lastAction := "" }

/-- The state produced by `passTurn sEnd "A"` (computed by evaluation):
`A` is declared winner and the match is finished. -/
def sEndPass : GameSession :=
  { roomId := "END001", players := ["A", "B"],
    hands := [("A", []), ("B", [⟨.K, .s⟩])],
    deck := [], trumpCard := none, trumpSuit := some .h,
    table := [], attacker := some "B", defender := some "A",
    phase := .finished, winner := some "A", canThrow := false,
    lastAction := "A победил!" }

example : GameSession.passTurn sEnd "A" = .ok (true, sEndPass) := by decide

/-- Witness for C4 at the endgame position. -/
theorem C4_win_check_witness :
    (([] : List Card) = [] ∧ [Card.mk .K .s] ≠ [] →
      sEndPass.winner = some "A" ∧ sEndPass.phase = .finished) ∧
    ([Card.mk .K .s] = [] ∧ ([] : List Card) ≠ [] →
      sEndPass.winner = some "B" ∧ sEndPass.phase = .finished) ∧
    (([] : List Card) = [] ∧ [Card.mk .K .s] = [] →
      sEndPass.winner = sEnd.winner ∧ sEndPass.phase = .playing) :=
  C4_win_check sEnd "A" "A" "B" sEndPass [] [⟨.K, .s⟩] (by decide) (by decide)
    (Or.inl (by decide)) (by decide) (by decide) (by decide) (by decide)

namespace GameSession

/-- On a well-formed session the defender hand-size computation inside
`throwIn` cannot throw. -/
theorem defenderHandSize_isOk (s : GameSession) (hwf : s.WellFormed) :
    ∃ n, defenderHandSize s = .ok n := by
  cases hd : s.defender with
  | none => exact ⟨0, by unfold defenderHandSize; simp only [hd]⟩
  | some d =>
    by_cases hde : d = ""
    · exact ⟨0, by unfold defenderHandSize; simp only [hd, if_pos hde]⟩
    · have hsome := hwf.2.2.1 d (hwf.2.2.2.2.1 d hd)
      cases hlk : alLookup s.hands d with
      | none => rw [hlk] at hsome; simp at hsome
      | some hh =>
        exact ⟨hh.length, by unfold defenderHandSize; simp only [hd, if_neg hde, hlk]⟩

/-- `takeCards` succeeds whenever its three preconditions hold on a
well-formed session. -/
theorem takeCards_ok_of (s : GameSession) (pid : String) (hwf : s.WellFormed)
    (hph : s.phase = .playing) (hdef : s.defender = some pid)
    (htab : ¬ s.table.isEmpty = true) :
    ∃ s', takeCards s pid = .ok (true, s') := by
  by_cases hpe : pid = ""
  · obtain ⟨s3, hs3⟩ := refillHands_isOk
      { s with table := ([] : List CardPair), canThrow := false } hwf
    have hrf := refillHands_frame _ _ hs3
    dsimp only at hrf
    have hp3 : ∀ p ∈ s3.players, (alLookup s3.hands p).isSome = true := by
      intro p hp
      rw [hrf.2.2.2.2.2.2.2.2.2.2.2 p]
      exact hwf.2.2.1 p (hrf.1 ▸ hp)
    obtain ⟨s5, hs5⟩ := checkWinner_isOk
      { s3 with lastAction := pid ++ " взял карты" } hp3
    rw [hdef] at hs3
    refine ⟨s5, ?_⟩
    unfold takeCards
    rw [if_neg (by simp [hph]), if_neg (by simp [hdef]), if_neg htab]
    simp only [bind, Except.bind, hdef, if_pos hpe, hs3, hs5]
  · have hmem : pid ∈ s.players := hwf.2.2.2.2.1 pid hdef
    have hsome := hwf.2.2.1 pid hmem
    cases hlk : alLookup s.hands pid with
    | none => rw [hlk] at hsome; simp at hsome
    | some hb =>
      have hwf2 : WellFormed
          { s with hands := alSet s.hands pid (sortHand (hb ++ tableCards s.table) s.trumpSuit),
                   table := ([] : List CardPair), canThrow := false } := by
        refine ⟨hwf.1, hwf.2.1, ?_, hwf.2.2.2.1, hwf.2.2.2.2.1, hwf.2.2.2.2.2⟩
        intro p hp
        show (alLookup (alSet s.hands pid (sortHand (hb ++ tableCards s.table) s.trumpSuit))
          p).isSome = true
        rw [alLookup_alSet_isSome _ _ _ _ (by simp [hlk])]
        exact hwf.2.2.1 p hp
      obtain ⟨s3, hs3⟩ := refillHands_isOk _ hwf2
      have hrf := refillHands_frame _ _ hs3
      dsimp only at hrf
      have hp3 : ∀ p ∈ s3.players, (alLookup s3.hands p).isSome = true := by
        intro p hp
        rw [hrf.2.2.2.2.2.2.2.2.2.2.2 p]
        rw [alLookup_alSet_isSome _ _ _ _ (by simp [hlk])]
        exact hwf.2.2.1 p (hrf.1 ▸ hp)
      obtain ⟨s5, hs5⟩ := checkWinner_isOk
        { s3 with lastAction := pid ++ " взял карты" } hp3
      rw [hdef] at hs3
      refine ⟨s5, ?_⟩
      unfold takeCards
      rw [if_neg (by simp [hph]), if_neg (by simp [hdef]), if_neg htab]
      simp only [bind, Except.bind, hdef, if_neg hpe, hlk, hs3, hs5]

end GameSession

/-- C3 counterexample: the claim quantifies over *any* playerId string,
but `throwIn` never compares the actor against the match's players, so
with the throw-in window open (`canThrow = true`, as after a completed
defense) a call by a playerId that is not in the match dereferences the
missing hand entry `this.hands[playerId]` and throws a `TypeError`
(`Except.error` in this model) instead of returning `false`. -/
theorem C3_counterexample :
    GameSession.throwIn sDemo "C" ⟨.r7, .s⟩ = Except.error () := by decide

/-- C3 (amended): for playerIds that are players of a well-formed match,
every move operation either fails — returning `false` with the match
state exactly as it was, never an exception — or succeeds; no operation
partially mutates state on a precondition violation. -/
theorem C3_moves_atomic (s : GameSession) (pid : String) (c1 c2 : Card)
    (hwf : s.WellFormed) (hpid : pid ∈ s.players) :
    (GameSession.attack s pid c1 = .ok (false, s) ∨
      ∃ s', GameSession.attack s pid c1 = .ok (true, s')) ∧
    (GameSession.defend s pid c1 c2 = .ok (false, s) ∨
      ∃ s', GameSession.defend s pid c1 c2 = .ok (true, s')) ∧
    (GameSession.throwIn s pid c1 = .ok (false, s) ∨
      ∃ s', GameSession.throwIn s pid c1 = .ok (true, s')) ∧
    (GameSession.passTurn s pid = .ok (false, s) ∨
      ∃ s', GameSession.passTurn s pid = .ok (true, s')) ∧
    (GameSession.takeCards s pid = .ok (false, s) ∨
      ∃ s', GameSession.takeCards s pid = .ok (true, s')) := by
  have hsome := hwf.2.2.1 pid hpid
  refine ⟨?_, ?_, ?_, ?_, ?_⟩
  · unfold GameSession.attack
    split
    · exact Or.inl rfl
    split
    · exact Or.inl rfl
    split
    · next hlk => rw [hlk] at hsome; simp at hsome
    next hand hlk =>
      split
      · exact Or.inl rfl
      split
      · exact Or.inr ⟨_, rfl⟩
      · exact Or.inl rfl
  · unfold GameSession.defend
    split
    · exact Or.inl rfl
    split
    · exact Or.inl rfl
    split
    · next hlk => rw [hlk] at hsome; simp at hsome
    next hand hlk =>
      split
      · exact Or.inl rfl
      split
      · next => exact Or.inl rfl
      next trump htr =>
        split
        · next => exact Or.inl rfl
        next table2 htb =>
          split
          · exact Or.inl rfl
          · exact Or.inr ⟨_, rfl⟩
  · unfold GameSession.throwIn
    split
    · exact Or.inl rfl
    split
    · exact Or.inl rfl
    split
    · next hlk => rw [hlk] at hsome; simp at hsome
    next hand hlk =>
      split
      · exact Or.inl rfl
      split
      · exact Or.inl rfl
      split
      · next hdh =>
        obtain ⟨n, hn⟩ := GameSession.defenderHandSize_isOk s hwf
        rw [hn] at hdh; cases hdh
      next n hdh =>
        split
        · exact Or.inl rfl
        · exact Or.inr ⟨_, rfl⟩
  · by_cases hph : s.phase = .playing
    · by_cases hatt : s.attacker = some pid
      · by_cases hdef : (s.table.all fun p => p.defense ≠ none) = true
        · exact Or.inr (GameSession.passTurn_ok_of s pid hwf hph hatt hdef)
        · refine Or.inl ?_
          unfold GameSession.passTurn
          rw [if_neg (by simp [hph]), if_neg (by simp [hatt]), if_pos (by simpa using hdef)]
      · refine Or.inl ?_
        unfold GameSession.passTurn
        rw [if_neg (by simp [hph]), if_pos (by simp [hatt])]
    · refine Or.inl ?_
      unfold GameSession.passTurn
      rw [if_pos (by simp [hph])]
  · by_cases hph : s.phase = .playing
    · by_cases hdef : s.defender = some pid
      · by_cases htab : s.table.isEmpty = true
        · refine Or.inl ?_
          unfold GameSession.takeCards
          rw [if_neg (by simp [hph]), if_neg (by simp [hdef]), if_pos htab]
        · exact Or.inr (GameSession.takeCards_ok_of s pid hwf hph hdef htab)
      · refine Or.inl ?_
        unfold GameSession.takeCards
        rw [if_neg (by simp [hph]), if_pos (by simp [hdef])]
    · refine Or.inl ?_
      unfold GameSession.takeCards
      rw [if_pos (by simp [hph])]

/-- Witness for the amended C3 at the demo position with player `A`,
using a card `A` does not hold (6♠) so every operation with that card is
a pure rejection. -/
theorem C3_moves_atomic_witness :
    (GameSession.attack sDemo "A" ⟨.r6, .s⟩ = .ok (false, sDemo) ∨
      ∃ s', GameSession.attack sDemo "A" ⟨.r6, .s⟩ = .ok (true, s')) ∧
    (GameSession.defend sDemo "A" ⟨.r6, .s⟩ ⟨.r7, .c⟩ = .ok (false, sDemo) ∨
      ∃ s', GameSession.defend sDemo "A" ⟨.r6, .s⟩ ⟨.r7, .c⟩ = .ok (true, s')) ∧
    (GameSession.throwIn sDemo "A" ⟨.r6, .s⟩ = .ok (false, sDemo) ∨
      ∃ s', GameSession.throwIn sDemo "A" ⟨.r6, .s⟩ = .ok (true, s')) ∧
    (GameSession.passTurn sDemo "A" = .ok (false, sDemo) ∨
      ∃ s', GameSession.passTurn sDemo "A" = .ok (true, s')) ∧
    (GameSession.takeCards sDemo "A" = .ok (false, sDemo) ∨
      ∃ s', GameSession.takeCards sDemo "A" = .ok (true, s')) :=
  C3_moves_atomic sDemo "A" ⟨.r6, .s⟩ ⟨.r7, .c⟩ (by decide) (by decide)

namespace GameSession

/-- One pass of the deal loop body over the player list: pop a card off
the deck top for each player in join order (`startGame`, inner loop).
An empty deck skips the push; a missing hand entry throws. -/
def dealPlayers (s : GameSession) : List String → Except Unit GameSession
  | [] => .ok s
  | pid :: rest =>
    match popLast s.deck with
    | some (c, deck2) =>
      match alLookup s.hands pid with
      | none => .error ()
      | some h =>
        dealPlayers { s with deck := deck2, hands := alSet s.hands pid (h ++ [c]) } rest
    | none => dealPlayers s rest

/-- The `for (let i = 0; i < 6; i++)` outer deal loop of `startGame`. -/
def dealRounds (s : GameSession) : Nat → Except Unit GameSession
  | 0 => .ok s
  | n + 1 =>
    match dealPlayers s s.players with
    | .error e => .error e
    | .ok s2 => dealRounds s2 n

/-- The inner card scan of `determineFirstAttacker` over one hand,
tracking the lowest trump card seen and its holder. -/
def detHand (trumpSuit : Option Suit) (pid : String) (hand : List Card)
    (acc : Option Card × Option String) : Option Card × Option String :=
  hand.foldl
    (fun acc card =>
      if some card.suit = trumpSuit then
        match acc.1 with
        | none => (some card, some pid)
        | some lt => if compareCards card lt < 0 then (some card, some pid) else acc
      else acc)
    acc

/-- The player scan of `determineFirstAttacker`. -/
def detPlayers (s : GameSession) :
    List String → Option Card × Option String → Except Unit (Option Card × Option String)
  | [], acc => .ok acc
  | pid :: rest, acc =>
    match alLookup s.hands pid with
    | none => .error ()
    | some hand => detPlayers s rest (detHand s.trumpSuit pid hand acc)

/-- JS `x || y` on player-id values: `null`, `undefined` and `""` fall
through to the fallback. -/
def truthyOr (o fallback : Option String) : Option String :=
  match o with
  | some x => if x = "" then fallback else some x
  | none => fallback

/-- `determineFirstAttacker` from `GameSession.ts`; `r` stands for the
`Math.floor(Math.random() * 2)` fallback draw used when neither hand
holds a trump card. -/
def determineFirstAttacker (s : GameSession) (r : Fin 2) : Except Unit GameSession :=
  match detPlayers s s.players (none, none) with
  | .error e => .error e
  | .ok acc => .ok { s with attacker := truthyOr acc.2 (s.players.get? r) }

/-- The final hand-sorting loop of `startGame`. -/
def sortAll (s : GameSession) : List String → Except Unit GameSession
  | [] => .ok s
  | pid :: rest =>
    match alLookup s.hands pid with
    | none => .error ()
    | some hand =>
      sortAll { s with hands := alSet s.hands pid (sortHand hand s.trumpSuit) } rest

/-- `startGame` from `GameSession.ts`.  `shuffled` stands for
`shuffleDeck(generateDeck())` (the shuffle is the only source of
randomness besides the attacker fallback `r`).  Note `deck.shift()`
removes the FIRST element; when the deck is already empty the trump suit
keeps its previous (`null`) value. -/
def startGame (shuffled : List Card) (r : Fin 2) (s : GameSession) : Except Unit GameSession :=
  match dealRounds { s with deck := shuffled } 6 with
  | .error e => .error e
  | .ok s2 =>
    let s3 :=
      match s2.deck with
      | c :: rest => { s2 with trumpCard := some c, deck := rest, trumpSuit := some c.suit }
      | [] => { s2 with trumpCard := none, deck := [] }
    match determineFirstAttacker s3 r with
    | .error e => .error e
    | .ok s4 =>
      let s5 := { s4 with defender := s4.players.find? fun p => ¬ s4.attacker = some p }
      match sortAll s5 s5.players with
      | .error e => .error e
      | .ok s6 => .ok { s6 with phase := .playing, lastAction := "Игра началась!" }

/-- `addPlayer` from `GameSession.ts`: room-capacity and duplicate checks,
then the push; the second join triggers `startGame`. -/
def addPlayer (shuffled : List Card) (r : Fin 2) (s : GameSession) (playerId : String) :
    Except Unit (Bool × GameSession) :=
  if s.players.length ≥ 2 then .ok (false, s)
  else if playerId ∈ s.players then .ok (false, s)
  else
    let s1 := { s with players := s.players ++ [playerId], hands := alSet s.hands playerId [] }
    if s1.players.length = 2 then
      match startGame shuffled r s1 with
      | .error e => .error e
      | .ok s2 => .ok (true, s2)
    else .ok (true, s1)

/-- `removePlayer` from `GameSession.ts`. -/
def removePlayer (s : GameSession) (playerId : String) : GameSession :=
  let s1 := { s with players := s.players.filter fun p => ¬ p = playerId,
                     hands := alErase s.hands playerId }
  if s1.phase = .playing ∧ s1.players.length = 1 then
    { s1 with winner := s1.players.head?, phase := .finished,
              lastAction := "Противник покинул игру" }
  else s1

end GameSession

/-- `GameState` from `shared/types.ts` as assembled by
`GameSession.getState`; hand entries are `ViewCard`s so the per-player
view can hold the `'back'` placeholder. -/
structure GameState where
  roomId : String
  players : List String
  phase : Phase
  hands : List (String × List ViewCard)
  table : List CardPair
  deck : List Card
  trumpCard : Option Card
  trumpSuit : Option Suit
  attacker : Option String
  defender : Option String
  winner : Option String
  canThrow : Bool
  lastAction : String
deriving DecidableEq, Repr

namespace GameSession

/-- `getState` from `GameSession.ts`: the full, unredacted state.  Note
that the deck is passed through whole — card identities included. -/
def getState (s : GameSession) : GameState :=
  { roomId := s.roomId, players := s.players, phase := s.phase,
    hands := s.hands.map fun e => (e.1, e.2.map ViewCard.card),
    table := s.table, deck := s.deck, trumpCard := s.trumpCard,
    trumpSuit := s.trumpSuit, attacker := s.attacker, defender := s.defender,
    winner := s.winner, canThrow := s.canThrow, lastAction := s.lastAction }

/-- The `hiddenHands` loop of `getStateForPlayer`: the requesting
player's entry is copied, every other player's hand is replaced by
`length` copies of `'back'`.  For an absent requester entry JS stores
`undefined` (modelled as no entry); for an absent opponent entry
`state.hands[pid].length` throws. -/
def hiddenHandsGo (hs : List (String × List ViewCard)) (playerId : String) :
    List String → Except Unit (List (String × List ViewCard))
  | [] => .ok []
  | pid :: rest =>
    if pid = playerId then
      match alLookup hs pid with
      | some h => (hiddenHandsGo hs playerId rest).map fun t => (pid, h) :: t
      | none => hiddenHandsGo hs playerId rest
    else
      match alLookup hs pid with
      | some h =>
        (hiddenHandsGo hs playerId rest).map
          fun t => (pid, List.replicate h.length ViewCard.back) :: t
      | none => .error ()

/-- `getStateForPlayer` from `GameSession.ts`. -/
def getStateForPlayer (s : GameSession) (playerId : String) : Except Unit GameState :=
  let state := getState s
  (hiddenHandsGo state.hands playerId s.players).map fun hidden =>
    { state with hands := hidden }

end GameSession

/-- The `{ success, roomId?, error? }` result records of `GameManager`. -/
structure CreateResult where
  success : Bool
  roomId : Option String := none
  error : Option String := none
deriving DecidableEq, Repr

/-- The mutable state of `GameManager`: the two maps `sessions`
(roomId → session) and `playerRooms` (playerId → roomId), modelled as
insertion-ordered association lists. -/
structure GameManager where
  sessions : List (String × GameSession)
  playerRooms : List (String × String)
deriving DecidableEq, Repr

namespace GameManager

/-- The empty manager (`new GameManager()`). -/
def empty : GameManager := { sessions := [], playerRooms := [] }

/-- `createRoom` from `GameManager.ts`.  `freshId` stands for the value
returned by `generateRoomId()`; its collision-freedom against the live
sessions is a hypothesis of the theorems, mirroring the retry loop's
postcondition.  `shuffled`/`r` feed a potential `startGame` (never
triggered here since the room starts with one player). -/
def createRoom (shuffled : List Card) (r : Fin 2) (m : GameManager)
    (playerId freshId : String) : Except Unit (CreateResult × GameManager) :=
  if alLookup m.playerRooms playerId ≠ none then
    .ok ({ success := false,
           error := some "Вы уже находитесь в комнате. Сначала выйдите из текущей." }, m)
  else
    match GameSession.addPlayer shuffled r (GameSession.new freshId) playerId with
    | .error e => .error e
    | .ok res =>
      .ok ({ success := true, roomId := some freshId },
        { m with sessions := alSet m.sessions freshId res.2,
                 playerRooms := alSet m.playerRooms playerId freshId })

/-- `joinRoom` from `GameManager.ts`. -/
def joinRoom (shuffled : List Card) (r : Fin 2) (m : GameManager)
    (playerId roomId : String) : Except Unit (CreateResult × GameManager) :=
  if alLookup m.playerRooms playerId ≠ none then
    .ok ({ success := false,
           error := some "Вы уже находитесь в комнате. Сначала выйдите из текущей." }, m)
  else
    match alLookup m.sessions roomId with
    | none => .ok ({ success := false, error := some "Комната не найдена." }, m)
    | some sess =>
      if sess.players.length ≥ 2 then
        .ok ({ success := false, error := some "Комната уже заполнена." }, m)
      else if sess.phase ≠ .waiting then
        .ok ({ success := false, error := some "Игра уже началась." }, m)
      else
        match GameSession.addPlayer shuffled r sess playerId with
        | .error e => .error e
        | .ok res =>
          .ok ({ success := true },
            { m with sessions := alSet m.sessions roomId res.2,
                     playerRooms := alSet m.playerRooms playerId roomId })

/-- `leaveRoom` from `GameManager.ts`.  `if (!roomId)` is JS truthiness:
an absent mapping and a mapping to the empty string both take the early
return. -/
def leaveRoom (m : GameManager) (playerId : String) : CreateResult × GameManager :=
  match alLookup m.playerRooms playerId with
  | none => ({ success := false, error := some "Вы не находитесь ни в одной комнате." }, m)
  | some roomId =>
    if roomId = "" then
      ({ success := false, error := some "Вы не находитесь ни в одной комнате." }, m)
    else
    match alLookup m.sessions roomId with
    | none => ({ success := false, error := some "Комната не найдена." }, m)
    | some sess =>
      let sess2 := GameSession.removePlayer sess playerId
      let m1 : GameManager :=
        { m with sessions := alSet m.sessions roomId sess2,
                 playerRooms := alErase m.playerRooms playerId }
      if sess2.players.length = 0 then
        ({ success := true }, { m1 with sessions := alErase m1.sessions roomId })
      else
        ({ success := true }, m1)

/-- `cleanupEmptyRooms` from `GameManager.ts`. -/
def cleanupEmptyRooms (m : GameManager) : Nat × GameManager :=
  ((m.sessions.filter fun e => e.2.players.length = 0).length,
   { m with sessions := m.sessions.filter fun e => ¬ e.2.players.length = 0 })

/-- `cleanupFinishedGames` from `GameManager.ts`: drops every finished
session and the player mappings of its members. -/
def cleanupFinishedGames (m : GameManager) : Nat × GameManager :=
  ((m.sessions.filter fun e => e.2.phase = .finished).length,
   { m with
     sessions := m.sessions.filter fun e => ¬ e.2.phase = .finished,
     playerRooms := m.playerRooms.filter fun pr =>
       ¬ (m.sessions.filter fun e => e.2.phase = .finished).any
           fun e => pr.1 ∈ e.2.players })

end GameManager

theorem alLookup_map_view (hs : List (String × List Card)) (q : String) :
    alLookup (hs.map fun e => (e.1, e.2.map ViewCard.card)) q =
      (alLookup hs q).map (List.map ViewCard.card) := by
  induction hs with
  | nil => rfl
  | cons e rest ih =>
    obtain ⟨k, v⟩ := e
    by_cases hk : k = q <;> simp [alLookup, hk, ih]

namespace GameSession

/-- The hidden-hands construction depends on the requester's exact entry
and, for every other player, only on the LENGTH of that player's hand. -/
theorem hiddenHandsGo_congr (hs1 hs2 : List (String × List ViewCard)) (pid : String) :
    ∀ l : List String,
      alLookup hs1 pid = alLookup hs2 pid →
      (∀ q ∈ l, (alLookup hs1 q).map List.length = (alLookup hs2 q).map List.length) →
      hiddenHandsGo hs1 pid l = hiddenHandsGo hs2 pid l := by
  intro l
  induction l with
  | nil => intro _ _; rfl
  | cons p rest ih =>
    intro hp hq
    have hrest := fun q hq' => hq q (List.mem_cons_of_mem _ hq')
    by_cases hpp : p = pid
    · subst hpp
      cases h2 : alLookup hs2 p with
      | none => simp only [hiddenHandsGo, if_pos rfl, hp, h2, ih hp hrest]
      | some h => simp only [hiddenHandsGo, if_pos rfl, hp, h2, ih hp hrest]
    · have hlen := hq p (by simp)
      cases h1 : alLookup hs1 p with
      | none =>
        cases h2 : alLookup hs2 p with
        | none => simp only [hiddenHandsGo, if_neg hpp, h1, h2]
        | some h => rw [h1, h2] at hlen; simp at hlen
      | some h =>
        cases h2 : alLookup hs2 p with
        | none => rw [h1, h2] at hlen; simp at hlen
        | some h2v =>
          have hlen2 : h.length = h2v.length := by
            rw [h1, h2] at hlen; simpa using hlen
          simp only [hiddenHandsGo, if_neg hpp, h1, h2, ih hp hrest, hlen2]

/-- C9 (amended): `getStateForPlayer` conceals the opponent's hand — two
states agreeing on everything except the cards inside other players'
hands (with equal counts) produce identical views — but the deck is
passed through verbatim, card identities included, along with table,
trump, roles, phase, winner and last action. -/
theorem C9_view_hides_opponent_hand (s1 s2 : GameSession) (pid : String)
    (hro : s1.roomId = s2.roomId) (hpl : s1.players = s2.players)
    (hph : s1.phase = s2.phase) (htb : s1.table = s2.table)
    (hdk : s1.deck = s2.deck) (htc : s1.trumpCard = s2.trumpCard)
    (hts : s1.trumpSuit = s2.trumpSuit) (hat : s1.attacker = s2.attacker)
    (hdf : s1.defender = s2.defender) (hwn : s1.winner = s2.winner)
    (hct : s1.canThrow = s2.canThrow) (hla : s1.lastAction = s2.lastAction)
    (hself : alLookup s1.hands pid = alLookup s2.hands pid)
    (hopp : ∀ q ∈ s1.players, (alLookup s1.hands q).map List.length =
      (alLookup s2.hands q).map List.length) :
    getStateForPlayer s1 pid = getStateForPlayer s2 pid ∧
    ∀ v, getStateForPlayer s1 pid = .ok v →
      v.deck = s1.deck ∧ v.table = s1.table ∧ v.trumpCard = s1.trumpCard ∧
      v.trumpSuit = s1.trumpSuit ∧ v.attacker = s1.attacker ∧ v.defender = s1.defender ∧
      v.phase = s1.phase ∧ v.winner = s1.winner ∧ v.lastAction = s1.lastAction := by
  have hgo : hiddenHandsGo (getState s1).hands pid s1.players =
      hiddenHandsGo (getState s2).hands pid s2.players := by
    rw [← hpl]
    apply hiddenHandsGo_congr
    · show alLookup (s1.hands.map fun e => (e.1, e.2.map ViewCard.card)) pid =
        alLookup (s2.hands.map fun e => (e.1, e.2.map ViewCard.card)) pid
      rw [alLookup_map_view, alLookup_map_view, hself]
    · intro q hq
      show ((alLookup (s1.hands.map fun e => (e.1, e.2.map ViewCard.card)) q).map
          List.length) =
        (alLookup (s2.hands.map fun e => (e.1, e.2.map ViewCard.card)) q).map List.length
      rw [alLookup_map_view, alLookup_map_view]
      have hq2 := hopp q hq
      cases ha : alLookup s1.hands q <;> cases hb : alLookup s2.hands q <;>
        rw [ha, hb] at hq2 <;> simp_all
  constructor
  · unfold getStateForPlayer
    dsimp only
    rw [hgo]
    cases hres : hiddenHandsGo (getState s2).hands pid s2.players with
    | error e => simp [Except.map, hres]
    | ok hid =>
      simp only [Except.map, hres]
      have : getState s1 = { getState s2 with hands := (getState s1).hands } := by
        simp [getState, hro, hpl, hph, htb, hdk, htc, hts, hat, hdf, hwn, hct, hla]
      rw [this]
  · intro v hv
    unfold getStateForPlayer at hv
    dsimp only at hv
    cases hres : hiddenHandsGo (getState s1).hands pid s1.players with
    | error e => rw [hres] at hv; cases hv
    | ok hid =>
      rw [hres] at hv
      simp only [Except.map] at hv
      cases hv
      exact ⟨rfl, rfl, rfl, rfl, rfl, rfl, rfl, rfl, rfl⟩

end GameSession

/-- Two copies of the demo position that differ only in the deck's card
identities (equal deck sizes). -/
def c9s1 : GameSession := { sDemo with deck := [⟨.r6, .c⟩] }

/-- Second copy, identical except for the one deck card. -/
def c9s2 : GameSession := { sDemo with deck := [⟨.r7, .c⟩] }

/-- C9 counterexample: the claim says the view shares only the deck
COUNT, not the deck's card identities.  These two states agree on every
field except the deck contents and have equal deck sizes, yet the views
rendered for player `A` differ — `getStateForPlayer` copies `deck`
verbatim into the view. -/
theorem C9_counterexample :
    ({ c9s1 with deck := [] } = { c9s2 with deck := [] }) ∧
    c9s1.deck.length = c9s2.deck.length ∧
    GameSession.getStateForPlayer c9s1 "A" ≠ GameSession.getStateForPlayer c9s2 "A" := by
  decide

/-- The demo position with the opponent `B` holding five different cards
(same count). -/
def sDemoAltB : GameSession :=
  { sDemo with
    hands := [("A", [⟨.r9, .c⟩, ⟨.r10, .c⟩, ⟨.J, .c⟩, ⟨.Q, .c⟩, ⟨.K, .c⟩]),
              ("B", [⟨.r6, .d⟩, ⟨.r7, .d⟩, ⟨.r8, .d⟩, ⟨.A, .d⟩, ⟨.r9, .s⟩])] }

/-- Witness for the amended C9: changing which five cards the opponent
holds leaves player `A`'s view untouched, and the view exposes the deck
verbatim. -/
theorem C9_view_hides_opponent_hand_witness :
    GameSession.getStateForPlayer sDemo "A" = GameSession.getStateForPlayer sDemoAltB "A" ∧
    ∀ v, GameSession.getStateForPlayer sDemo "A" = .ok v →
      v.deck = sDemo.deck ∧ v.table = sDemo.table ∧ v.trumpCard = sDemo.trumpCard ∧
      v.trumpSuit = sDemo.trumpSuit ∧ v.attacker = sDemo.attacker ∧
      v.defender = sDemo.defender ∧ v.phase = sDemo.phase ∧ v.winner = sDemo.winner ∧
      v.lastAction = sDemo.lastAction :=
  GameSession.C9_view_hides_opponent_hand sDemo sDemoAltB "A" rfl rfl rfl rfl rfl rfl rfl
    rfl rfl rfl rfl rfl (by decide) (by decide)

/-- Total number of cards held in the hands of the listed players. -/
def handsTotalOf (players : List String) (hands : List (String × List Card)) : Nat :=
  (players.map fun p => ((alLookup hands p).getD []).length).sum

/-- Total number of cards in both players' hands. -/
def handsTotal (s : GameSession) : Nat := handsTotalOf s.players s.hands

/-- The quantity of the card-conservation claim:
`|deck| + (trump indicator present ? 1 : 0) + Σ|hand| + |table cards|`. -/
def cardCount (s : GameSession) : Nat :=
  s.deck.length + (if s.trumpCard.isSome then 1 else 0) + handsTotal s +
    GameSession.tableCount s.table

/-- The same quantity without the trump-indicator bit. -/
def coreCount (s : GameSession) : Nat :=
  s.deck.length + handsTotal s + GameSession.tableCount s.table

/-- C1 counterexample: from the well-formed playing position `sDemo`
carrying exactly 36 cards, the successful `passTurn` discards the two
defended table cards (the code has no discard pile in the count) and
leaves only 34 cards in `deck + indicator + hands + table`. -/
theorem C1_counterexample :
    sDemo.phase = Phase.playing ∧ cardCount sDemo = 36 ∧
    GameSession.passTurn sDemo "A" = .ok (true, sDemoPass) ∧
    cardCount sDemoPass = 34 := by decide

theorem sum_map_update_single {l : List String} {f g : String → Nat} {pid : String}
    (hnd : l.Nodup) (hmem : pid ∈ l)
    (hcong : ∀ q ∈ l, q ≠ pid → f q = g q) :
    (l.map f).sum + g pid = (l.map g).sum + f pid := by
  induction l with
  | nil => cases hmem
  | cons x xs ih =>
    rcases List.mem_cons.mp hmem with rfl | hx
    · have hmaps : xs.map f = xs.map g := by
        apply List.map_congr_left
        intro q hq
        exact hcong q (List.mem_cons_of_mem _ hq)
          fun h => (List.nodup_cons.mp hnd).1 (h ▸ hq)
      simp only [List.map_cons, List.sum_cons, hmaps]
      omega
    · have hxp : x ≠ pid := by
        rintro rfl
        exact (List.nodup_cons.mp hnd).1 hx
      have hfx : f x = g x := hcong x (by simp) hxp
      have hih := ih (List.nodup_cons.mp hnd).2 hx
        fun q hq hne => hcong q (List.mem_cons_of_mem _ hq) hne
      simp only [List.map_cons, List.sum_cons, hfx]
      omega

/-- Updating one present player's hand changes the total by the length
difference. -/
theorem handsTotalOf_alSet (players : List String) (hands : List (String × List Card))
    (pid : String) (h0 h1 : List Card)
    (hnd : players.Nodup) (hmem : pid ∈ players) (hlk : alLookup hands pid = some h0) :
    handsTotalOf players (alSet hands pid h1) + h0.length =
      handsTotalOf players hands + h1.length := by
  have key := @sum_map_update_single players
    (fun p => ((alLookup (alSet hands pid h1) p).getD []).length)
    (fun p => ((alLookup hands p).getD []).length) pid hnd hmem
    (fun q _ hne => by simp only [alLookup_alSet_ne hands pid q h1 hne])
  simp only [alLookup_alSet_self, hlk, Option.getD_some] at key
  unfold handsTotalOf
  exact key

theorem removeFirst_length :
    ∀ (l : List Card) (c : Card), c ∈ l → (removeFirst l c).length + 1 = l.length := by
  intro l
  induction l with
  | nil => intro c h; cases h
  | cons x xs ih =>
    intro c h
    simp only [removeFirst]
    by_cases hx : x = c
    · rw [if_pos hx]; rfl
    · rw [if_neg hx]
      have hc : c ∈ xs := by
        rcases List.mem_cons.mp h with rfl | h2
        · exact absurd rfl hx
        · exact h2
      have := ih c hc
      simp only [List.length_cons]
      omega

theorem popLast_length :
    ∀ (l : List Card) (c : Card) (rest : List Card),
      popLast l = some (c, rest) → rest.length + 1 = l.length := by
  intro l
  induction l with
  | nil => intro c rest h; cases h
  | cons x xs ih =>
    intro c rest h
    cases xs with
    | nil => cases h; rfl
    | cons y ys =>
      simp only [popLast] at h
      cases hp : popLast (y :: ys) with
      | none => rw [hp] at h; cases h
      | some pr =>
        obtain ⟨c2, rest2⟩ := pr
        rw [hp] at h
        have hcc : c2 = c ∧ x :: rest2 = rest := by simpa using h
        obtain ⟨rfl, hrest⟩ := hcc
        have := ih _ _ hp
        subst hrest
        simp only [List.length_cons] at this ⊢
        omega

namespace GameSession

theorem drawLoop_conserve :
    ∀ (fuel : Nat) (hand deck : List Card),
      (drawLoop hand deck fuel).1.length + (drawLoop hand deck fuel).2.length =
        hand.length + deck.length := by
  intro fuel
  induction fuel with
  | zero => intro hand deck; rfl
  | succ n ih =>
    intro hand deck
    simp only [drawLoop]
    split
    · cases hp : popLast deck with
      | none => simp
      | some pr =>
        obtain ⟨c, deck2⟩ := pr
        have hl := popLast_length deck c deck2 hp
        simp only [hp]
        have := ih (hand ++ [c]) deck2
        simp only [List.length_append, List.length_cons, List.length_nil] at this ⊢
        omega
    · simp

theorem tableCount_cons (p : CardPair) (l : List CardPair) :
    tableCount (p :: l) = 1 + p.defense.toList.length + tableCount l := by
  simp [tableCount, tableCards]
  omega

theorem tableCount_append_undefended (t : List CardPair) (c : Card) :
    tableCount (t ++ [⟨c, none⟩]) = tableCount t + 1 := by
  simp [tableCount, tableCards]

theorem defendTable_tableCount :
    ∀ (t : List CardPair) (a d : Card) (t2 : List CardPair),
      defendTable t a d = some t2 → tableCount t2 = tableCount t + 1 := by
  intro t
  induction t with
  | nil => intro a d t2 h; cases h
  | cons p ps ih =>
    intro a d t2 h
    simp only [defendTable] at h
    split at h
    · next hcond =>
      cases h
      rw [tableCount_cons, tableCount_cons, hcond.2]
      simp
      omega
    · cases hps : defendTable ps a d with
      | none => rw [hps] at h; cases h
      | some t2p =>
        rw [hps] at h
        simp only [Option.map] at h
        cases h
        have := ih a d t2p hps
        rw [tableCount_cons, tableCount_cons, this]
        omega

end GameSession

namespace GameSession

/-- Anatomy of a successful `attack`. -/
theorem attack_success (s : GameSession) (pid : String) (c : Card) (s2 : GameSession)
    (h : attack s pid c = .ok (true, s2)) :
    s.phase = .playing ∧ s.attacker = some pid ∧
    ∃ hand, alLookup s.hands pid = some hand ∧ c ∈ hand ∧ s.table = [] ∧
      s2 = { s with hands := alSet s.hands pid (removeFirst hand c),
                    table := s.table ++ [⟨c, none⟩], canThrow := false,
                    lastAction := pid ++ " атакует картой " ++ cardStr c } := by
  unfold attack at h
  split at h
  · exact absurd h (by simp)
  next h1 =>
  split at h
  · exact absurd h (by simp)
  next h2 =>
  split at h
  · cases h
  next hand hlk =>
  split at h
  · exact absurd h (by simp)
  next h3 =>
  split at h
  · next h4 =>
    cases h
    exact ⟨not_not.mp h1, not_not.mp h2, hand, hlk, by simpa using h3,
      by simpa using h4, rfl⟩
  · exact absurd h (by simp)

/-- Anatomy of a successful `defend`. -/
theorem defend_success (s : GameSession) (pid : String) (ac dc : Card) (s2 : GameSession)
    (h : defend s pid ac dc = .ok (true, s2)) :
    s.phase = .playing ∧ s.defender = some pid ∧
    ∃ hand t2, alLookup s.hands pid = some hand ∧ dc ∈ hand ∧
      defendTable s.table ac dc = some t2 ∧
      s2 = { s with hands := alSet s.hands pid (removeFirst hand dc), table := t2,
                    canThrow := t2.all fun p => p.defense ≠ none,
                    lastAction := pid ++ " защищается картой " ++ cardStr dc } := by
  unfold defend at h
  split at h
  · exact absurd h (by simp)
  next h1 =>
  split at h
  · exact absurd h (by simp)
  next h2 =>
  split at h
  · cases h
  next hand hlk =>
  split at h
  · exact absurd h (by simp)
  next h3 =>
  split at h
  · exact absurd h (by simp)
  next trump htr =>
  split at h
  · exact absurd h (by simp)
  next t2 htb =>
  split at h
  · exact absurd h (by simp)
  next h4 =>
  cases h
  exact ⟨not_not.mp h1, not_not.mp h2, hand, t2, hlk, by simpa using h3, htb, rfl⟩

/-- Anatomy of a successful `throwIn`. -/
theorem throwIn_success (s : GameSession) (pid : String) (c : Card) (s2 : GameSession)
    (h : throwIn s pid c = .ok (true, s2)) :
    s.phase = .playing ∧ s.canThrow = true ∧
    ∃ hand, alLookup s.hands pid = some hand ∧ c ∈ hand ∧
      s2 = { s with hands := alSet s.hands pid (removeFirst hand c),
                    table := s.table ++ [⟨c, none⟩], canThrow := false,
                    lastAction := pid ++ " подкидывает карту " ++ cardStr c } := by
  unfold throwIn at h
  split at h
  · exact absurd h (by simp)
  next h1 =>
  split at h
  · exact absurd h (by simp)
  next h2 =>
  split at h
  · cases h
  next hand hlk =>
  split at h
  · exact absurd h (by simp)
  next h3 =>
  split at h
  · exact absurd h (by simp)
  next h4 =>
  split at h
  · cases h
  next n hn =>
  split at h
  · exact absurd h (by simp)
  next h5 =>
  cases h
  exact ⟨not_not.mp h1, by simpa using h2, hand, hlk, by simpa using h3, rfl⟩

/-- `refillFold` moves cards only between the deck and the processed
players' hands: their combined count is invariant. -/
theorem refillFold_conserve :
    ∀ (l : List String) (s s2 : GameSession), refillFold s l = .ok s2 →
      (∀ p ∈ l, p ∈ s.players) → s.players.Nodup →
      s2.deck.length + handsTotal s2 = s.deck.length + handsTotal s := by
  intro l
  induction l with
  | nil =>
    intro s s2 h _ _
    simp only [refillFold] at h
    cases h
    rfl
  | cons pid rest ih =>
    intro s s2 h hmem hnd
    simp only [refillFold] at h
    cases hlk : alLookup s.hands pid with
    | none => rw [hlk] at h; cases h
    | some hand =>
      simp only [hlk] at h
      have hmid := ih _ _ h (fun p hp => hmem p (List.mem_cons_of_mem _ hp)) hnd
      have hht := handsTotalOf_alSet s.players s.hands pid hand
        (sortHand (drawLoop hand s.deck s.deck.length).1 s.trumpSuit)
        hnd (hmem pid (by simp)) hlk
      have hdl := drawLoop_conserve s.deck.length hand s.deck
      have hsl := sortHand_length (drawLoop hand s.deck s.deck.length).1 s.trumpSuit
      unfold handsTotal at hmid ⊢
      dsimp only at hmid
      omega

/-- `refillHands` preserves the combined deck-and-hands count. -/
theorem refillHands_conserve (s s2 : GameSession) (h : refillHands s = .ok s2)
    (hwf : s.WellFormed) :
    s2.deck.length + handsTotal s2 = s.deck.length + handsTotal s := by
  simp only [refillHands, bind, Except.bind] at h
  split at h
  · cases h
  next s1 hf =>
    have hc := refillFold_conserve _ _ _ hf
      (fun p hp => by
        have hm := mem_truthyList hp
        simp only [List.mem_cons, List.not_mem_nil, or_false] at hm
        rcases hm with hm | hm
        · exact hwf.2.2.2.1 p hm.symm
        · exact hwf.2.2.2.2.1 p hm.symm)
      hwf.1
    split at h <;> cases h
    · exact hc
    · exact hc

/-- The trump indicator survives `refillHands` unless the deck ran out,
in which case it is discarded with the deck left empty. -/
theorem refillHands_trump (s s2 : GameSession) (h : refillHands s = .ok s2) :
    s2.trumpCard = s.trumpCard ∨ (s2.trumpCard = none ∧ s2.deck = []) := by
  simp only [refillHands, bind, Except.bind] at h
  split at h
  · cases h
  next s1 hf =>
    have hframe := refillFold_frame _ _ _ hf
    split at h
    · next hcond =>
      cases h
      exact Or.inr ⟨rfl, by simpa using hcond.1⟩
    · cases h
      exact Or.inl hframe.2.2.2.2.2.2.2.1

end GameSession

namespace GameSession

/-- Fields untouched by the deal loop, and preservation of hand keys. -/
def DealFrame (s s2 : GameSession) : Prop :=
  s2.players = s.players ∧ s2.trumpCard = s.trumpCard ∧ s2.trumpSuit = s.trumpSuit ∧
  s2.table = s.table ∧ s2.phase = s.phase ∧ s2.winner = s.winner ∧
  s2.attacker = s.attacker ∧ s2.defender = s.defender ∧ s2.canThrow = s.canThrow ∧
  s2.lastAction = s.lastAction ∧ s2.roomId = s.roomId ∧
  ∀ p, (alLookup s2.hands p).isSome = (alLookup s.hands p).isSome

theorem DealFrame.refl (s : GameSession) : DealFrame s s :=
  ⟨rfl, rfl, rfl, rfl, rfl, rfl, rfl, rfl, rfl, rfl, rfl, fun _ => rfl⟩

theorem DealFrame.comp {s1 s2 s3 : GameSession}
    (h1 : DealFrame s1 s2) (h2 : DealFrame s2 s3) : DealFrame s1 s3 := by
  obtain ⟨a1, a2, a3, a4, a5, a6, a7, a8, a9, a10, a11, a12⟩ := h1
  obtain ⟨b1, b2, b3, b4, b5, b6, b7, b8, b9, b10, b11, b12⟩ := h2
  exact ⟨b1.trans a1, b2.trans a2, b3.trans a3, b4.trans a4, b5.trans a5,
    b6.trans a6, b7.trans a7, b8.trans a8, b9.trans a9, b10.trans a10,
    b11.trans a11, fun p => (b12 p).trans (a12 p)⟩

theorem dealPlayers_spec :
    ∀ (l : List String) (s : GameSession),
      (∀ p ∈ l, (alLookup s.hands p).isSome = true) →
      ∃ s2, dealPlayers s l = .ok s2 ∧ DealFrame s s2 ∧
        (s.players.Nodup → (∀ p ∈ l, p ∈ s.players) →
          s2.deck.length + handsTotal s2 = s.deck.length + handsTotal s) := by
  intro l
  induction l with
  | nil => exact fun s _ => ⟨s, rfl, DealFrame.refl s, fun _ _ => rfl⟩
  | cons pid rest ih =>
    intro s hl
    have hpid := hl pid (by simp)
    cases hp : popLast s.deck with
    | none =>
      obtain ⟨s2, hok, hfr, hcons⟩ := ih s fun p hp' => hl p (List.mem_cons_of_mem _ hp')
      exact ⟨s2, by simp only [dealPlayers, hp]; exact hok, hfr,
        fun hnd hm => hcons hnd fun p hp' => hm p (List.mem_cons_of_mem _ hp')⟩
    | some pr =>
      obtain ⟨c, deck2⟩ := pr
      cases hlk : alLookup s.hands pid with
      | none => rw [hlk] at hpid; simp at hpid
      | some hand =>
        have hstep : DealFrame s
            { s with deck := deck2, hands := alSet s.hands pid (hand ++ [c]) } := by
          refine ⟨rfl, rfl, rfl, rfl, rfl, rfl, rfl, rfl, rfl, rfl, rfl, fun p => ?_⟩
          exact alLookup_alSet_isSome _ _ _ _ (by simp [hlk])
        obtain ⟨s2, hok, hfr, hcons⟩ := ih
          { s with deck := deck2, hands := alSet s.hands pid (hand ++ [c]) }
          (by intro p hp'
              rw [hstep.2.2.2.2.2.2.2.2.2.2.2 p]
              exact hl p (List.mem_cons_of_mem _ hp'))
        refine ⟨s2, by simp only [dealPlayers, hp, hlk]; exact hok,
          hstep.comp hfr, fun hnd hm => ?_⟩
        have hcons2 := hcons (by exact hnd) (by intro p hp'; exact hm p (List.mem_cons_of_mem _ hp'))
        have hht := handsTotalOf_alSet s.players s.hands pid hand (hand ++ [c])
          hnd (hm pid (by simp)) hlk
        have hpl := popLast_length s.deck c deck2 hp
        unfold handsTotal at hcons2 ⊢
        dsimp only at hcons2
        simp only [List.length_append, List.length_cons, List.length_nil] at hht
        omega

theorem dealRounds_spec :
    ∀ (n : Nat) (s : GameSession),
      (∀ p ∈ s.players, (alLookup s.hands p).isSome = true) →
      ∃ s2, dealRounds s n = .ok s2 ∧ DealFrame s s2 ∧
        (s.players.Nodup → s2.deck.length + handsTotal s2 = s.deck.length + handsTotal s) := by
  intro n
  induction n with
  | zero => exact fun s _ => ⟨s, rfl, DealFrame.refl s, fun _ => rfl⟩
  | succ k ih =>
    intro s hl
    obtain ⟨s2, hok, hfr, hcons⟩ := dealPlayers_spec s.players s hl
    obtain ⟨s3, hok2, hfr2, hcons2⟩ := ih s2
      (by intro p hp'
          rw [hfr.2.2.2.2.2.2.2.2.2.2.2 p]
          exact hl p (hfr.1 ▸ hp'))
    refine ⟨s3, by simp only [dealRounds, hok]; exact hok2, hfr.comp hfr2, fun hnd => ?_⟩
    have ha := hcons hnd fun p hp' => hp'
    have hb := hcons2 (by rw [hfr.1]; exact hnd)
    have hht : handsTotal s2 = handsTotalOf s.players s2.hands := by
      unfold handsTotal
      rw [hfr.1]
    omega

theorem detPlayers_isOk :
    ∀ (l : List String) (s : GameSession) (acc : Option Card × Option String),
      (∀ p ∈ l, (alLookup s.hands p).isSome = true) →
      ∃ acc2, detPlayers s l acc = .ok acc2 := by
  intro l
  induction l with
  | nil => exact fun s acc _ => ⟨acc, rfl⟩
  | cons pid rest ih =>
    intro s acc hl
    have hpid := hl pid (by simp)
    cases hlk : alLookup s.hands pid with
    | none => rw [hlk] at hpid; simp at hpid
    | some hand =>
      obtain ⟨acc2, hok⟩ := ih s (detHand s.trumpSuit pid hand acc)
        fun p hp' => hl p (List.mem_cons_of_mem _ hp')
      exact ⟨acc2, by simp only [detPlayers, hlk]; exact hok⟩

theorem determineFirstAttacker_spec (s : GameSession) (r : Fin 2)
    (hl : ∀ p ∈ s.players, (alLookup s.hands p).isSome = true) :
    ∃ att, determineFirstAttacker s r = .ok { s with attacker := att } := by
  obtain ⟨acc2, hok⟩ := detPlayers_isOk s.players s (none, none) hl
  exact ⟨truthyOr acc2.2 (s.players.get? r), by
    unfold determineFirstAttacker
    rw [hok]⟩

theorem sortAll_spec :
    ∀ (l : List String) (s : GameSession),
      (∀ p ∈ l, (alLookup s.hands p).isSome = true) →
      ∃ s2, sortAll s l = .ok s2 ∧ DealFrame s s2 ∧ s2.deck = s.deck ∧
        (s.players.Nodup → (∀ p ∈ l, p ∈ s.players) → handsTotal s2 = handsTotal s) := by
  intro l
  induction l with
  | nil => exact fun s _ => ⟨s, rfl, DealFrame.refl s, rfl, fun _ _ => rfl⟩
  | cons pid rest ih =>
    intro s hl
    have hpid := hl pid (by simp)
    cases hlk : alLookup s.hands pid with
    | none => rw [hlk] at hpid; simp at hpid
    | some hand =>
      have hstep : DealFrame s
          { s with hands := alSet s.hands pid (sortHand hand s.trumpSuit) } := by
        refine ⟨rfl, rfl, rfl, rfl, rfl, rfl, rfl, rfl, rfl, rfl, rfl, fun p => ?_⟩
        exact alLookup_alSet_isSome _ _ _ _ (by simp [hlk])
      obtain ⟨s2, hok, hfr, hdk, hcons⟩ := ih
        { s with hands := alSet s.hands pid (sortHand hand s.trumpSuit) }
        (by intro p hp'
            rw [hstep.2.2.2.2.2.2.2.2.2.2.2 p]
            exact hl p (List.mem_cons_of_mem _ hp'))
      refine ⟨s2, by simp only [sortAll, hlk]; exact hok, hstep.comp hfr, hdk,
        fun hnd hm => ?_⟩
      have hcons2 := hcons (by exact hnd) (by intro p hp'; exact hm p (List.mem_cons_of_mem _ hp'))
      have hht := handsTotalOf_alSet s.players s.hands pid hand (sortHand hand s.trumpSuit)
        hnd (hm pid (by simp)) hlk
      have hsl := sortHand_length hand s.trumpSuit
      unfold handsTotal at hcons2 ⊢
      dsimp only at hcons2
      omega

end GameSession



namespace GameSession

/-- Full behaviour of `startGame`: it succeeds whenever every player has
a hand entry; it keeps the player list, the table, the winner and the
hand keys; it ends in `playing` phase; and afterwards
`deck + indicator + hands` accounts exactly for the shuffled deck plus
the previous hands. -/
theorem startGame_spec (shuffled : List Card) (r : Fin 2) (s : GameSession)
    (hl : ∀ p ∈ s.players, (alLookup s.hands p).isSome = true) :
    ∃ s6, startGame shuffled r s = .ok s6 ∧ s6.players = s.players ∧
      s6.phase = .playing ∧ s6.table = s.table ∧ s6.winner = s.winner ∧
      (∀ p, (alLookup s6.hands p).isSome = (alLookup s.hands p).isSome) ∧
      (s.players.Nodup →
        s6.deck.length + (if s6.trumpCard.isSome then 1 else 0) + handsTotal s6 =
          shuffled.length + handsTotal s) := by
  obtain ⟨s2, hok2, hfr2, hcons2⟩ := dealRounds_spec 6 { s with deck := shuffled }
    (by intro p hp; exact hl p hp)
  have hpl2 : s2.players = s.players := hfr2.1
  have hl2 : ∀ p ∈ s2.players, (alLookup s2.hands p).isSome = true := by
    intro p hp
    rw [hfr2.2.2.2.2.2.2.2.2.2.2.2 p]
    exact hl p (hpl2 ▸ hp)
  cases hdk : s2.deck with
  | cons c rest =>
    obtain ⟨att, hok4⟩ := determineFirstAttacker_spec
      { s2 with trumpCard := some c, deck := rest, trumpSuit := some c.suit } r
      (by intro p hp; exact hl2 p hp)
    obtain ⟨s6p, hok6, hfr6, hdk6, hcons6⟩ := sortAll_spec s2.players { s2 with trumpCard := some c, deck := rest, trumpSuit := some c.suit, attacker := att, defender := s2.players.find? fun p => ¬ att = some p } (by intro p hp; exact hl2 p hp)
    refine ⟨{ s6p with phase := .playing, lastAction := "Игра началась!" }, ?_, ?_, rfl,
      ?_, ?_, ?_, ?_⟩
    · unfold startGame
      dsimp only at hok4 hok6 ⊢
      simp only [hok2, hdk, hok4, hok6]
    · show s6p.players = s.players
      exact (hfr6.1 : s6p.players = s2.players).trans hpl2
    · show s6p.table = s.table
      exact (hfr6.2.2.2.1 : s6p.table = s2.table).trans hfr2.2.2.2.1
    · show s6p.winner = s.winner
      exact (hfr6.2.2.2.2.2.1 : s6p.winner = s2.winner).trans hfr2.2.2.2.2.2.1
    · intro p
      show (alLookup s6p.hands p).isSome = (alLookup s.hands p).isSome
      exact ((hfr6.2.2.2.2.2.2.2.2.2.2.2 p :
        (alLookup s6p.hands p).isSome = (alLookup s2.hands p).isSome)).trans
        (hfr2.2.2.2.2.2.2.2.2.2.2.2 p)
    · intro hnd
      have hnd2 : s2.players.Nodup := hpl2 ▸ hnd
      have hc2 := hcons2 (by exact hnd)
      have hc6 : handsTotal s6p = handsTotalOf s2.players s2.hands := by
        have h0 := hcons6 (by exact hnd2) (fun p hp => hp)
        unfold handsTotal at h0 ⊢
        dsimp only at h0
        exact h0
      have htr6 : s6p.trumpCard = some c := hfr6.2.1
      have hdeck6 : s6p.deck = rest := hdk6
      have hdklen : s2.deck.length = rest.length + 1 := by rw [hdk]; rfl
      have hcnt : handsTotal s2 = handsTotalOf s2.players s2.hands := rfl
      unfold handsTotal at hc2 ⊢
      dsimp only at hc2 ⊢
      rw [hdeck6, htr6]
      unfold handsTotal at hc6
      simp only [Option.isSome_some, if_pos]
      omega
  | nil =>
    obtain ⟨att, hok4⟩ := determineFirstAttacker_spec
      { s2 with trumpCard := none, deck := ([] : List Card) } r
      (by intro p hp; exact hl2 p hp)
    obtain ⟨s6p, hok6, hfr6, hdk6, hcons6⟩ := sortAll_spec s2.players { s2 with trumpCard := none, deck := ([] : List Card), attacker := att, defender := s2.players.find? fun p => ¬ att = some p } (by intro p hp; exact hl2 p hp)
    refine ⟨{ s6p with phase := .playing, lastAction := "Игра началась!" }, ?_, ?_, rfl,
      ?_, ?_, ?_, ?_⟩
    · unfold startGame
      dsimp only at hok4 hok6 ⊢
      simp only [hok2, hdk, hok4, hok6]
    · show s6p.players = s.players
      exact (hfr6.1 : s6p.players = s2.players).trans hpl2
    · show s6p.table = s.table
      exact (hfr6.2.2.2.1 : s6p.table = s2.table).trans hfr2.2.2.2.1
    · show s6p.winner = s.winner
      exact (hfr6.2.2.2.2.2.1 : s6p.winner = s2.winner).trans hfr2.2.2.2.2.2.1
    · intro p
      show (alLookup s6p.hands p).isSome = (alLookup s.hands p).isSome
      exact ((hfr6.2.2.2.2.2.2.2.2.2.2.2 p :
        (alLookup s6p.hands p).isSome = (alLookup s2.hands p).isSome)).trans
        (hfr2.2.2.2.2.2.2.2.2.2.2.2 p)
    · intro hnd
      have hnd2 : s2.players.Nodup := hpl2 ▸ hnd
      have hc2 := hcons2 (by exact hnd)
      have hc6 : handsTotal s6p = handsTotalOf s2.players s2.hands := by
        have h0 := hcons6 (by exact hnd2) (fun p hp => hp)
        unfold handsTotal at h0 ⊢
        dsimp only at h0
        exact h0
      have htr6 : s6p.trumpCard = none := hfr6.2.1
      have hdeck6 : s6p.deck = ([] : List Card) := hdk6
      have hdklen : s2.deck.length = 0 := by rw [hdk]; rfl
      have hcnt : handsTotal s2 = handsTotalOf s2.players s2.hands := rfl
      unfold handsTotal at hc2 ⊢
      dsimp only at hc2 ⊢
      rw [hdeck6, htr6]
      unfold handsTotal at hc6
      simp only [Option.isSome_none, Bool.false_eq_true, if_false, List.length_nil]
      omega

end GameSession

theorem handsTotal_zero (s : GameSession)
    (hall : ∀ q ∈ s.players, alLookup s.hands q = some []) : handsTotal s = 0 := by
  unfold handsTotal handsTotalOf
  apply List.sum_eq_zero
  intro x hx
  obtain ⟨q, hq, rfl⟩ := List.mem_map.mp hx
  rw [hall q hq]
  rfl

/-- C1 (amended): the quantity
`|deck| + indicator + Σ|hand| + |table cards|` is NOT invariantly 36 —
`passTurn` discards the table cards (there is no discard pile in the
count) and the refill step discards the trump indicator once the deck is
empty.  Precisely: `attack`, `defend` and `throwIn` preserve the
quantity; `takeCards` preserves `|deck| + Σ|hand| + |table|` and keeps
the indicator unless the deck ran out; `passTurn` additionally removes
exactly the discarded table cards from the quantity; and the initial
deal accounts for all 36 cards. -/
theorem C1_card_conservation (s : GameSession) (pid : String) (c1 c2 : Card)
    (s' : GameSession) (shuffled : List Card) (r : Fin 2)
    (hwf : s.WellFormed) (hpid : pid ∈ s.players) :
    (GameSession.attack s pid c1 = .ok (true, s') → cardCount s' = cardCount s) ∧
    (GameSession.defend s pid c1 c2 = .ok (true, s') → cardCount s' = cardCount s) ∧
    (GameSession.throwIn s pid c1 = .ok (true, s') → cardCount s' = cardCount s) ∧
    (GameSession.takeCards s pid = .ok (true, s') →
      coreCount s' = coreCount s ∧
      (s'.trumpCard = s.trumpCard ∨ (s'.trumpCard = none ∧ s'.deck = []))) ∧
    (GameSession.passTurn s pid = .ok (true, s') →
      coreCount s' + GameSession.tableCount s.table = coreCount s ∧
      (s'.trumpCard = s.trumpCard ∨ (s'.trumpCard = none ∧ s'.deck = []))) ∧
    (s.table = [] → (∀ q ∈ s.players, alLookup s.hands q = some []) →
      shuffled.length = 36 →
      ∀ s0, GameSession.startGame shuffled r s = .ok s0 → cardCount s0 = 36) := by
  refine ⟨?_, ?_, ?_, ?_, ?_, ?_⟩
  · intro h
    obtain ⟨hph, hatt, hand, hlk, hc, htb, rfl⟩ :=
      GameSession.attack_success s pid c1 s' h
    have hht := handsTotalOf_alSet s.players s.hands pid hand (removeFirst hand c1)
      hwf.1 hpid hlk
    have hrl := removeFirst_length hand c1 hc
    have htc := GameSession.tableCount_append_undefended s.table c1
    unfold cardCount handsTotal
    dsimp only
    omega
  · intro h
    obtain ⟨hph, hdef, hand, t2, hlk, hc, htb, rfl⟩ :=
      GameSession.defend_success s pid c1 c2 s' h
    have hht := handsTotalOf_alSet s.players s.hands pid hand (removeFirst hand c2)
      hwf.1 hpid hlk
    have hrl := removeFirst_length hand c2 hc
    have htc := GameSession.defendTable_tableCount s.table c1 c2 t2 htb
    unfold cardCount handsTotal
    dsimp only
    omega
  · intro h
    obtain ⟨hph, hct, hand, hlk, hc, rfl⟩ :=
      GameSession.throwIn_success s pid c1 s' h
    have hht := handsTotalOf_alSet s.players s.hands pid hand (removeFirst hand c1)
      hwf.1 hpid hlk
    have hrl := removeFirst_length hand c1 hc
    have htc := GameSession.tableCount_append_undefended s.table c1
    unfold cardCount handsTotal
    dsimp only
    omega
  · intro h
    have hne : pid ≠ "" := fun he => hwf.2.1 (he ▸ hpid)
    unfold GameSession.takeCards at h
    split at h
    · exact absurd h (by simp)
    next h1 =>
    split at h
    · exact absurd h (by simp)
    next h2 =>
    split at h
    · exact absurd h (by simp)
    next h3 =>
    have hdef : s.defender = some pid := not_not.mp h2
    have hsome := hwf.2.2.1 pid hpid
    cases hlk : alLookup s.hands pid with
    | none => rw [hlk] at hsome; simp at hsome
    | some handB =>
    simp only [bind, Except.bind, hdef, if_neg hne, hlk] at h
    split at h
    · cases h
    next s3 hs3 =>
    split at h
    · cases h
    next s5 hcw =>
    cases h
    have hwf2 : GameSession.WellFormed { s with hands := alSet s.hands pid (sortHand (handB ++ GameSession.tableCards s.table) s.trumpSuit), table := ([] : List CardPair), canThrow := false, defender := some pid } := by
      refine ⟨hwf.1, hwf.2.1, ?_, hwf.2.2.2.1, ?_, ?_⟩
      · intro p hp
        show (alLookup (alSet s.hands pid (sortHand (handB ++ GameSession.tableCards s.table) s.trumpSuit)) p).isSome = true
        rw [alLookup_alSet_isSome _ _ _ _ (by simp [hlk])]
        exact hwf.2.2.1 p hp
      · intro d hd
        show d ∈ s.players
        cases hd
        exact hpid
      · show s.attacker = none ∨ s.attacker ≠ some pid
        rcases hwf.2.2.2.2.2 with ha | ha
        · exact Or.inl ha
        · rw [hdef] at ha
          exact Or.inr ha
    have hcons := GameSession.refillHands_conserve _ _ hs3 hwf2
    have htr := GameSession.refillHands_trump _ _ hs3
    have hrf := GameSession.refillHands_frame _ _ hs3
    dsimp only at hcons htr hrf
    have hcf := GameSession.checkWinner_frame _ _ hcw
    dsimp only at hcf
    have hht := handsTotalOf_alSet s.players s.hands pid handB
      (sortHand (handB ++ GameSession.tableCards s.table) s.trumpSuit) hwf.1 hpid hlk
    have hsl := sortHand_length (handB ++ GameSession.tableCards s.table) s.trumpSuit
    constructor
    · unfold coreCount handsTotal
      rw [hcf.2.2.1, hcf.1, hcf.2.1, hcf.2.2.2.2.2.1, hrf.2.2.2.2.2.1]
      unfold handsTotal at hcons
      dsimp only at hcons
      have htc0 : GameSession.tableCount ([] : List CardPair) = 0 := rfl
      have htcc : GameSession.tableCount s.table =
        (GameSession.tableCards s.table).length := rfl
      simp only [List.length_append] at hsl
      omega
    · rcases htr with htr | htr
      · left; rw [hcf.2.2.2.1]; exact htr
      · right
        exact ⟨by rw [hcf.2.2.2.1]; exact htr.1, by rw [hcf.2.2.1]; exact htr.2⟩
  · intro h
    obtain ⟨hph, hatt, hdefall, s2, hs2, hcw⟩ := GameSession.passTurn_success s pid s' h
    have hwf1 : GameSession.WellFormed
        { s with table := ([] : List CardPair), canThrow := false } := hwf
    have hcons := GameSession.refillHands_conserve _ _ hs2 hwf1
    have htr := GameSession.refillHands_trump _ _ hs2
    have hrf := GameSession.refillHands_frame _ _ hs2
    dsimp only at hcons htr hrf
    have hcf := GameSession.checkWinner_frame _ _ hcw
    dsimp only at hcf
    constructor
    · unfold coreCount handsTotal
      rw [hcf.2.2.1, hcf.1, hcf.2.1, hcf.2.2.2.2.2.1, hrf.2.2.2.2.2.1]
      unfold handsTotal at hcons
      dsimp only at hcons
      have htc0 : GameSession.tableCount ([] : List CardPair) = 0 := rfl
      omega
    · rcases htr with htr | htr
      · left; rw [hcf.2.2.2.1]; exact htr
      · right
        exact ⟨by rw [hcf.2.2.2.1]; exact htr.1, by rw [hcf.2.2.1]; exact htr.2⟩
  · intro htab hall h36 s0 h0
    have hl : ∀ q ∈ s.players, (alLookup s.hands q).isSome = true := by
      intro q hq
      rw [hall q hq]
      rfl
    obtain ⟨s6, hok, hplz, hphz, htbz, hwz, hkz, hcnt⟩ :=
      GameSession.startGame_spec shuffled r s hl
    have heq := hok.symm.trans h0
    cases heq
    have hzero := handsTotal_zero s hall
    have hc := hcnt hwf.1
    unfold cardCount
    rw [htbz, htab]
    have htc0 : GameSession.tableCount ([] : List CardPair) = 0 := rfl
    omega

/-- Witness for the amended C1 at the demo position (the `passTurn`
implication is the live one: `passTurn sDemo "A" = ok (true, sDemoPass)`
and the two defended table cards leave the count). -/
theorem C1_card_conservation_witness :
    (GameSession.attack sDemo "A" ⟨.r6, .s⟩ = .ok (true, sDemoPass) →
      cardCount sDemoPass = cardCount sDemo) ∧
    (GameSession.defend sDemo "A" ⟨.r6, .s⟩ ⟨.r7, .c⟩ = .ok (true, sDemoPass) →
      cardCount sDemoPass = cardCount sDemo) ∧
    (GameSession.throwIn sDemo "A" ⟨.r6, .s⟩ = .ok (true, sDemoPass) →
      cardCount sDemoPass = cardCount sDemo) ∧
    (GameSession.takeCards sDemo "A" = .ok (true, sDemoPass) →
      coreCount sDemoPass = coreCount sDemo ∧
      (sDemoPass.trumpCard = sDemo.trumpCard ∨
        (sDemoPass.trumpCard = none ∧ sDemoPass.deck = []))) ∧
    (GameSession.passTurn sDemo "A" = .ok (true, sDemoPass) →
      coreCount sDemoPass + GameSession.tableCount sDemo.table = coreCount sDemo ∧
      (sDemoPass.trumpCard = sDemo.trumpCard ∨
        (sDemoPass.trumpCard = none ∧ sDemoPass.deck = []))) ∧
    (sDemo.table = [] → (∀ q ∈ sDemo.players, alLookup sDemo.hands q = some []) →
      generateDeck.length = 36 →
      ∀ s0, GameSession.startGame generateDeck ⟨0, by omega⟩ sDemo = .ok s0 →
        cardCount s0 = 36) :=
  C1_card_conservation sDemo "A" ⟨.r6, .s⟩ ⟨.r7, .c⟩ sDemoPass generateDeck
    ⟨0, by omega⟩ (by decide) (by decide)

theorem alLookup_eq_none_iff {β : Type} (l : List (String × β)) (k : String) :
    alLookup l k = none ↔ k ∉ l.map Prod.fst := by
  induction l with
  | nil => simp [alLookup]
  | cons e rest ih =>
    obtain ⟨k', v⟩ := e
    by_cases hk : k' = k
    · subst hk
      simp [alLookup]
    · simp [alLookup, hk, ih, Ne.symm hk]

theorem mem_of_alLookup {β : Type} :
    ∀ (l : List (String × β)) (k : String) (v : β), alLookup l k = some v → (k, v) ∈ l := by
  intro l
  induction l with
  | nil => intro k v h; cases h
  | cons e rest ih =>
    obtain ⟨k', v'⟩ := e
    intro k v h
    simp only [alLookup] at h
    by_cases hk : k' = k
    · rw [if_pos hk] at h
      cases h
      subst hk
      exact List.mem_cons_self _ _
    · rw [if_neg hk] at h
      exact List.mem_cons_of_mem _ (ih k v h)

theorem alSet_of_lookup_none {β : Type} :
    ∀ (l : List (String × β)) (k : String) (v : β),
      alLookup l k = none → alSet l k v = l ++ [(k, v)] := by
  intro l
  induction l with
  | nil => intro k v _; rfl
  | cons e rest ih =>
    obtain ⟨k', v'⟩ := e
    intro k v h
    simp only [alLookup] at h
    by_cases hk : k' = k
    · rw [if_pos hk] at h; cases h
    · rw [if_neg hk] at h
      simp only [alSet, if_neg hk, List.cons_append]
      rw [ih k v h]

theorem alSet_keys_of_lookup_some {β : Type} :
    ∀ (l : List (String × β)) (k : String) (v w : β),
      alLookup l k = some w → (alSet l k v).map Prod.fst = l.map Prod.fst := by
  intro l
  induction l with
  | nil => intro k v w h; cases h
  | cons e rest ih =>
    obtain ⟨k', v'⟩ := e
    intro k v w h
    simp only [alLookup] at h
    by_cases hk : k' = k
    · subst hk
      simp [alSet]
    · rw [if_neg hk] at h
      simp only [alSet, if_neg hk, List.map_cons]
      rw [ih k v w h]

theorem mem_alSet_elim {β : Type} :
    ∀ (l : List (String × β)) (k : String) (v : β) (e : String × β),
      (l.map Prod.fst).Nodup → e ∈ alSet l k v →
      e = (k, v) ∨ (e ∈ l ∧ ¬ e.1 = k) := by
  intro l
  induction l with
  | nil =>
    intro k v e _ he
    simp only [alSet, List.mem_singleton] at he
    exact Or.inl he
  | cons f rest ih =>
    obtain ⟨k', v'⟩ := f
    intro k v e hnd he
    have hnd2 : (k' :: rest.map Prod.fst).Nodup := by rw [List.map_cons] at hnd; exact hnd
    have hnd' := List.nodup_cons.mp hnd2
    by_cases hk : k' = k
    · subst hk
      have hset : alSet ((k', v') :: rest) k' v = (k', v) :: rest := by
        simp [alSet]
      rw [hset] at he
      rcases List.mem_cons.mp he with he | he
      · exact Or.inl he
      · right
        refine ⟨List.mem_cons_of_mem _ he, ?_⟩
        intro hek
        have hm : e.1 ∈ rest.map Prod.fst := List.mem_map.mpr ⟨e, he, rfl⟩
        rw [hek] at hm
        exact hnd'.1 hm
    · simp only [alSet, if_neg hk, List.mem_cons] at he
      rcases he with he | he
      · rw [he]
        exact Or.inr ⟨List.mem_cons_self _ _, hk⟩
      · rcases ih k v e hnd'.2 he with h1 | h1
        · exact Or.inl h1
        · exact Or.inr ⟨List.mem_cons_of_mem _ h1.1, h1.2⟩

theorem alLookup_append_left {β : Type} :
    ∀ (l l2 : List (String × β)) (k : String) (v : β),
      alLookup l k = some v → alLookup (l ++ l2) k = some v := by
  intro l
  induction l with
  | nil => intro l2 k v h; cases h
  | cons e rest ih =>
    obtain ⟨k', v'⟩ := e
    intro l2 k v h
    simp only [alLookup] at h ⊢
    by_cases hk : k' = k
    · rwa [if_pos hk] at h ⊢
    · rw [if_neg hk] at h ⊢
      exact ih l2 k v h

theorem alLookup_append_right {β : Type} :
    ∀ (l l2 : List (String × β)) (k : String),
      alLookup l k = none → alLookup (l ++ l2) k = alLookup l2 k := by
  intro l
  induction l with
  | nil => intro l2 k _; rfl
  | cons e rest ih =>
    obtain ⟨k', v'⟩ := e
    intro l2 k h
    simp only [alLookup] at h ⊢
    by_cases hk : k' = k
    · rw [if_pos hk] at h; cases h
    · rw [if_neg hk] at h ⊢
      exact ih l2 k h

theorem mem_alErase {β : Type} (l : List (String × β)) (k : String) (e : String × β) :
    e ∈ alErase l k ↔ e ∈ l ∧ ¬ e.1 = k := by
  simp [alErase, List.mem_filter]

theorem alLookup_alErase_ne {β : Type} :
    ∀ (l : List (String × β)) (k k2 : String), k2 ≠ k →
      alLookup (alErase l k) k2 = alLookup l k2 := by
  intro l
  induction l with
  | nil => intro k k2 _; rfl
  | cons e rest ih =>
    obtain ⟨k', v'⟩ := e
    intro k k2 hne
    by_cases hk : k' = k
    · subst hk
      have h1 : alErase ((k', v') :: rest) k' = alErase rest k' := by
        simp [alErase]
      rw [h1, ih k' k2 hne]
      simp only [alLookup]
      rw [if_neg (fun h => hne h.symm)]
    · have h1 : alErase ((k', v') :: rest) k = (k', v') :: alErase rest k := by
        simp [alErase, hk]
      rw [h1]
      simp only [alLookup]
      by_cases hk2 : k' = k2
      · rw [if_pos hk2, if_pos hk2]
      · rw [if_neg hk2, if_neg hk2]
        exact ih k k2 hne

theorem alLookup_filter_some {β : Type} :
    ∀ (l : List (String × β)) (pred : String × β → Bool) (k : String) (v : β),
      (l.map Prod.fst).Nodup → alLookup l k = some v → pred (k, v) = true →
      alLookup (l.filter pred) k = some v := by
  intro l
  induction l with
  | nil => intro pred k v _ h _; cases h
  | cons e rest ih =>
    obtain ⟨k', v'⟩ := e
    intro pred k v hnd h hp
    have hnd2 : (k' :: rest.map Prod.fst).Nodup := by rw [List.map_cons] at hnd; exact hnd
    have hnd' := List.nodup_cons.mp hnd2
    simp only [alLookup] at h
    by_cases hk : k' = k
    · rw [if_pos hk] at h
      cases h
      subst hk
      rw [List.filter_cons, if_pos hp]
      simp [alLookup]
    · rw [if_neg hk] at h
      rw [List.filter_cons]
      by_cases hpe : pred (k', v') = true
      · rw [if_pos hpe]
        simp only [alLookup]
        rw [if_neg hk]
        exact ih pred k v hnd'.2 h hp
      · rw [if_neg hpe]
        exact ih pred k v hnd'.2 h hp

theorem keys_nodup_key_unique {β : Type} :
    ∀ (l : List (String × β)) (k : String) (a b : β),
      (l.map Prod.fst).Nodup → (k, a) ∈ l → (k, b) ∈ l → a = b := by
  intro l
  induction l with
  | nil => intro k a b _ h _; cases h
  | cons e rest ih =>
    obtain ⟨k', v'⟩ := e
    intro k a b hnd ha hb
    have hnd2 : (k' :: rest.map Prod.fst).Nodup := by rw [List.map_cons] at hnd; exact hnd
    have hnd' := List.nodup_cons.mp hnd2
    rcases List.mem_cons.mp ha with h1 | h1
    · rcases List.mem_cons.mp hb with h2 | h2
      · exact congrArg Prod.snd (h1.trans h2.symm)
      · have hk : k = k' := congrArg Prod.fst h1
        have hmem : k ∈ rest.map Prod.fst := List.mem_map.mpr ⟨(k, b), h2, rfl⟩
        rw [hk] at hmem
        exact absurd hmem hnd'.1
    · rcases List.mem_cons.mp hb with h2 | h2
      · have hk : k = k' := congrArg Prod.fst h2
        have hmem : k ∈ rest.map Prod.fst := List.mem_map.mpr ⟨(k, a), h1, rfl⟩
        rw [hk] at hmem
        exact absurd hmem hnd'.1
      · exact ih k a b hnd'.2 h1 h2

theorem keys_nodup_filter {β : Type} (l : List (String × β)) (pred : String × β → Bool)
    (hnd : (l.map Prod.fst).Nodup) : ((l.filter pred).map Prod.fst).Nodup :=
  hnd.sublist (List.Sublist.map Prod.fst (List.filter_sublist l))

theorem keys_nodup_alErase {β : Type} (l : List (String × β)) (k : String)
    (hnd : (l.map Prod.fst).Nodup) : ((alErase l k).map Prod.fst).Nodup :=
  keys_nodup_filter l _ hnd

namespace GameManager

/-- Per-session sanity used by the registry invariant: the roster has no
duplicates and every rostered player has a hand entry. -/
def SessOk (sess : GameSession) : Prop :=
  sess.players.Nodup ∧ ∀ p ∈ sess.players, (alLookup sess.hands p).isSome = true

instance (sess : GameSession) : Decidable (SessOk sess) := by
  unfold SessOk
  exact inferInstance

/-- A registry entry `(playerId, roomId)` points at a live session whose
roster contains the player. -/
def EntryLive (m : GameManager) (e : String × String) : Prop :=
  match alLookup m.sessions e.2 with
  | some sess => e.1 ∈ sess.players
  | none => False

instance (m : GameManager) (e : String × String) : Decidable (EntryLive m e) := by
  unfold EntryLive
  cases alLookup m.sessions e.2 with
  | none => exact isFalse fun h => h
  | some sess => exact (inferInstance : Decidable (e.1 ∈ sess.players))

/-- The registry 1:1 invariant: at most one room per player (no duplicate
`playerRooms` keys), no duplicate room ids, every registry entry points at
a live session containing the player, every rostered player of a live
session is registered to exactly that room, and every live session is
internally sane. -/
def Inv (m : GameManager) : Prop :=
  (m.playerRooms.map Prod.fst).Nodup ∧
  (m.sessions.map Prod.fst).Nodup ∧
  (∀ e ∈ m.playerRooms, EntryLive m e) ∧
  (∀ e ∈ m.sessions, ∀ p ∈ e.2.players, alLookup m.playerRooms p = some e.1) ∧
  (∀ e ∈ m.sessions, SessOk e.2)

instance (m : GameManager) : Decidable (Inv m) := by
  unfold Inv
  exact inferInstance

end GameManager

theorem addPlayer_spec (shuffled : List Card) (r : Fin 2) (s : GameSession) (playerId : String)
    (hw : ∀ p ∈ s.players, (alLookup s.hands p).isSome = true)
    (hnotin : playerId ∉ s.players) (hlen : s.players.length < 2) :
    ∃ s2, GameSession.addPlayer shuffled r s playerId = .ok (true, s2) ∧
      s2.players = s.players ++ [playerId] ∧
      ∀ p ∈ s2.players, (alLookup s2.hands p).isSome = true := by
  have hge : ¬ s.players.length ≥ 2 := by omega
  have hl : ∀ p ∈ s.players ++ [playerId],
      (alLookup (alSet s.hands playerId []) p).isSome = true := by
    intro p hp
    rcases List.mem_append.mp hp with hp | hp
    · have hne : p ≠ playerId := fun h => hnotin (h ▸ hp)
      rw [alLookup_alSet_ne s.hands playerId p [] hne]
      exact hw p hp
    · rw [List.mem_singleton.mp hp, alLookup_alSet_self]
      rfl
  unfold GameSession.addPlayer
  rw [if_neg hge, if_neg hnotin]
  dsimp only
  by_cases h2 : (s.players ++ [playerId]).length = 2
  · rw [if_pos h2]
    obtain ⟨s6, hok, hpl, hph, htb, hwn, hhands, hcnt⟩ := GameSession.startGame_spec shuffled r
      { s with players := s.players ++ [playerId], hands := alSet s.hands playerId [] }
      (by intro p hp; exact hl p hp)
    dsimp only at hpl hhands
    refine ⟨s6, ?_, ?_, ?_⟩
    · simp only [hok]
    · exact hpl
    · intro p hp
      rw [hhands p]
      exact hl p (hpl ▸ hp)
  · rw [if_neg h2]
    exact ⟨_, rfl, rfl, by intro p hp; exact hl p hp⟩

theorem removePlayer_fields (s : GameSession) (pid : String) :
    (GameSession.removePlayer s pid).players = s.players.filter (fun p => ¬ p = pid) ∧
    (GameSession.removePlayer s pid).hands = alErase s.hands pid := by
  unfold GameSession.removePlayer
  dsimp only
  split
  · exact ⟨rfl, rfl⟩
  · exact ⟨rfl, rfl⟩

namespace GameManager

theorem EntryLive_of (m : GameManager) (e : String × String) (sess : GameSession)
    (h : alLookup m.sessions e.2 = some sess) (hm : e.1 ∈ sess.players) : EntryLive m e := by
  unfold EntryLive
  simp only [h]
  exact hm

theorem EntryLive_elim (m : GameManager) (e : String × String) (h : EntryLive m e) :
    ∃ sess, alLookup m.sessions e.2 = some sess ∧ e.1 ∈ sess.players := by
  unfold EntryLive at h
  cases hls : alLookup m.sessions e.2 with
  | none => rw [hls] at h; exact h.elim
  | some sess => rw [hls] at h; exact ⟨sess, rfl, h⟩

theorem cleanupEmptyRooms_inv (m : GameManager) (hInv : Inv m) :
    Inv (cleanupEmptyRooms m).2 := by
  obtain ⟨hnd1, hnd2, hlive, hback, hok⟩ := hInv
  unfold cleanupEmptyRooms
  dsimp only
  refine ⟨hnd1, keys_nodup_filter _ _ hnd2, ?_, ?_, ?_⟩
  · intro e he
    obtain ⟨sess, hls, hmem⟩ := EntryLive_elim m e (hlive e he)
    have hnz : ¬ sess.players.length = 0 := by
      intro h0
      rw [List.length_eq_zero.mp h0] at hmem
      exact List.not_mem_nil _ hmem
    have hfil : alLookup (m.sessions.filter fun e2 => ¬ e2.2.players.length = 0) e.2 =
        some sess :=
      alLookup_filter_some m.sessions _ e.2 sess hnd2 hls (decide_eq_true hnz)
    exact EntryLive_of _ e sess hfil hmem
  · intro e he p hp
    exact hback e (List.mem_filter.mp he).1 p hp
  · intro e he
    exact hok e (List.mem_filter.mp he).1

theorem cleanupFinishedGames_inv (m : GameManager) (hInv : Inv m) :
    Inv (cleanupFinishedGames m).2 := by
  obtain ⟨hnd1, hnd2, hlive, hback, hok⟩ := hInv
  unfold cleanupFinishedGames
  dsimp only
  refine ⟨keys_nodup_filter _ _ hnd1, keys_nodup_filter _ _ hnd2, ?_, ?_, ?_⟩
  · intro e he
    obtain ⟨hem, hpr⟩ := List.mem_filter.mp he
    obtain ⟨sess, hls, hmem⟩ := EntryLive_elim m e (hlive e hem)
    simp only [decide_eq_true_eq] at hpr
    have hnf : ¬ sess.phase = Phase.finished := by
      intro hf
      have hin : (e.2, sess) ∈ m.sessions.filter (fun e2 => e2.2.phase = Phase.finished) :=
        List.mem_filter.mpr ⟨mem_of_alLookup _ _ _ hls, decide_eq_true hf⟩
      exact hpr (List.any_eq_true.mpr ⟨(e.2, sess), hin, decide_eq_true hmem⟩)
    have hfil : alLookup (m.sessions.filter fun e2 => ¬ e2.2.phase = Phase.finished) e.2 =
        some sess :=
      alLookup_filter_some m.sessions _ e.2 sess hnd2 hls (decide_eq_true hnf)
    exact EntryLive_of _ e sess hfil hmem
  · intro e he p hp
    obtain ⟨hem, hef⟩ := List.mem_filter.mp he
    have hb := hback e hem p hp
    refine alLookup_filter_some m.playerRooms _ p e.1 hnd1 hb ?_
    simp only [decide_eq_true_eq]
    intro hany
    obtain ⟨f, hf_mem, hf_p⟩ := List.any_eq_true.mp hany
    obtain ⟨hfm, hff⟩ := List.mem_filter.mp hf_mem
    have hb2 := hback f hfm p (of_decide_eq_true hf_p)
    rw [hb] at hb2
    injection hb2 with heq
    have h22 : f.2 = e.2 := keys_nodup_key_unique m.sessions e.1 f.2 e.2 hnd2
      (by rw [heq]; exact hfm) hem
    simp only [decide_eq_true_eq] at hef hff
    exact hef (h22 ▸ hff)
  · intro e he
    exact hok e (List.mem_filter.mp he).1

end GameManager

namespace GameManager

theorem createRoom_inv (shuffled : List Card) (r : Fin 2) (m : GameManager)
    (playerId freshId : String) (hInv : Inv m)
    (hfresh : alLookup m.sessions freshId = none) (res : CreateResult) (m2 : GameManager)
    (h : createRoom shuffled r m playerId freshId = .ok (res, m2)) : Inv m2 := by
  obtain ⟨hnd1, hnd2, hlive, hback, hok⟩ := hInv
  unfold createRoom at h
  by_cases hreg : alLookup m.playerRooms playerId ≠ none
  · rw [if_pos hreg] at h
    cases h
    exact ⟨hnd1, hnd2, hlive, hback, hok⟩
  · rw [if_neg hreg] at h
    have hnone := not_not.mp hreg
    obtain ⟨s2, hap, hpl, hhs⟩ := addPlayer_spec shuffled r (GameSession.new freshId) playerId
      (by intro p hp; simp [GameSession.new] at hp)
      (by simp [GameSession.new])
      (by simp [GameSession.new])
    simp only [hap] at h
    cases h
    simp only [GameSession.new] at hpl
    rw [List.nil_append] at hpl
    have hpnotin : playerId ∉ m.playerRooms.map Prod.fst := (alLookup_eq_none_iff _ _).mp hnone
    have hfnotin : freshId ∉ m.sessions.map Prod.fst := (alLookup_eq_none_iff _ _).mp hfresh
    have hsetS : alSet m.sessions freshId s2 = m.sessions ++ [(freshId, s2)] :=
      alSet_of_lookup_none _ _ _ hfresh
    have hsetP : alSet m.playerRooms playerId freshId = m.playerRooms ++ [(playerId, freshId)] :=
      alSet_of_lookup_none _ _ _ hnone
    unfold Inv
    dsimp only
    rw [hsetS, hsetP]
    refine ⟨?_, ?_, ?_, ?_, ?_⟩
    · rw [List.map_append]
      refine List.Nodup.append hnd1 (List.nodup_singleton _) ?_
      intro a ha hb
      simp only [List.map_cons, List.map_nil, List.mem_singleton] at hb
      rw [hb] at ha
      exact hpnotin ha
    · rw [List.map_append]
      refine List.Nodup.append hnd2 (List.nodup_singleton _) ?_
      intro a ha hb
      simp only [List.map_cons, List.map_nil, List.mem_singleton] at hb
      rw [hb] at ha
      exact hfnotin ha
    · intro e he
      rcases List.mem_append.mp he with he | he
      · obtain ⟨sess, hls, hmem⟩ := EntryLive_elim m e (hlive e he)
        refine EntryLive_of _ e sess ?_ hmem
        exact alLookup_append_left _ _ _ _ hls
      · obtain rfl := List.mem_singleton.mp he
        refine EntryLive_of _ (playerId, freshId) s2 ?_ ?_
        · show alLookup (m.sessions ++ [(freshId, s2)]) freshId = some s2
          rw [alLookup_append_right _ _ _ hfresh]
          simp [alLookup]
        · rw [hpl]
          simp
    · intro e he p hp
      rcases List.mem_append.mp he with he | he
      · exact alLookup_append_left _ _ _ _ (hback e he p hp)
      · obtain rfl := List.mem_singleton.mp he
        dsimp only at hp ⊢
        rw [hpl] at hp
        rw [List.mem_singleton.mp hp]
        rw [alLookup_append_right _ _ _ hnone]
        simp [alLookup]
    · intro e he
      rcases List.mem_append.mp he with he | he
      · exact hok e he
      · obtain rfl := List.mem_singleton.mp he
        constructor
        · dsimp only
          rw [hpl]
          exact List.nodup_singleton _
        · intro p hp
          exact hhs p hp

end GameManager

namespace GameManager

theorem joinRoom_inv (shuffled : List Card) (r : Fin 2) (m : GameManager)
    (playerId roomId : String) (hInv : Inv m) (res : CreateResult) (m2 : GameManager)
    (h : joinRoom shuffled r m playerId roomId = .ok (res, m2)) : Inv m2 := by
  obtain ⟨hnd1, hnd2, hlive, hback, hok⟩ := hInv
  unfold joinRoom at h
  by_cases hreg : alLookup m.playerRooms playerId ≠ none
  · rw [if_pos hreg] at h
    cases h
    exact ⟨hnd1, hnd2, hlive, hback, hok⟩
  · rw [if_neg hreg] at h
    have hnone := not_not.mp hreg
    cases hls : alLookup m.sessions roomId with
    | none =>
      simp only [hls] at h
      cases h
      exact ⟨hnd1, hnd2, hlive, hback, hok⟩
    | some sess =>
      simp only [hls] at h
      by_cases hlen : sess.players.length ≥ 2
      · rw [if_pos hlen] at h
        cases h
        exact ⟨hnd1, hnd2, hlive, hback, hok⟩
      · rw [if_neg hlen] at h
        by_cases hph : sess.phase ≠ Phase.waiting
        · rw [if_pos hph] at h
          cases h
          exact ⟨hnd1, hnd2, hlive, hback, hok⟩
        · rw [if_neg hph] at h
          have hmem_s : (roomId, sess) ∈ m.sessions := mem_of_alLookup _ _ _ hls
          have hnotin : playerId ∉ sess.players := by
            intro hc
            have hb := hback (roomId, sess) hmem_s playerId hc
            rw [hnone] at hb
            cases hb
          obtain ⟨hsnd, hsw⟩ := hok (roomId, sess) hmem_s
          obtain ⟨s2, hap, hpl, hhs⟩ := addPlayer_spec shuffled r sess playerId hsw hnotin
            (by omega)
          simp only [hap] at h
          cases h
          have hsetP : alSet m.playerRooms playerId roomId =
              m.playerRooms ++ [(playerId, roomId)] := alSet_of_lookup_none _ _ _ hnone
          have hkeysS : (alSet m.sessions roomId s2).map Prod.fst = m.sessions.map Prod.fst :=
            alSet_keys_of_lookup_some _ _ _ sess hls
          have hpnotin : playerId ∉ m.playerRooms.map Prod.fst :=
            (alLookup_eq_none_iff _ _).mp hnone
          unfold Inv
          dsimp only
          rw [hsetP]
          refine ⟨?_, ?_, ?_, ?_, ?_⟩
          · rw [List.map_append]
            refine List.Nodup.append hnd1 (List.nodup_singleton _) ?_
            intro a ha hb
            simp only [List.map_cons, List.map_nil, List.mem_singleton] at hb
            rw [hb] at ha
            exact hpnotin ha
          · rw [hkeysS]
            exact hnd2
          · intro e he
            rcases List.mem_append.mp he with he | he
            · obtain ⟨sess3, hls3, hmem3⟩ := EntryLive_elim m e (hlive e he)
              by_cases he2 : e.2 = roomId
              · rw [he2, hls] at hls3
                injection hls3 with h3
                subst h3
                refine EntryLive_of _ e s2 ?_ ?_
                · show alLookup (alSet m.sessions roomId s2) e.2 = some s2
                  rw [he2]
                  exact alLookup_alSet_self _ _ _
                · rw [hpl]
                  exact List.mem_append.mpr (Or.inl hmem3)
              · refine EntryLive_of _ e sess3 ?_ hmem3
                show alLookup (alSet m.sessions roomId s2) e.2 = some sess3
                rw [alLookup_alSet_ne _ _ _ _ he2]
                exact hls3
            · obtain rfl := List.mem_singleton.mp he
              refine EntryLive_of _ (playerId, roomId) s2 ?_ ?_
              · exact alLookup_alSet_self _ _ _
              · rw [hpl]
                simp
          · intro e he p hp
            rcases mem_alSet_elim m.sessions roomId s2 e hnd2 he with he | ⟨hein, hene⟩
            · rw [he] at hp ⊢
              dsimp only at hp ⊢
              rw [hpl] at hp
              rcases List.mem_append.mp hp with hp | hp
              · exact alLookup_append_left _ _ _ _ (hback (roomId, sess) hmem_s p hp)
              · rw [List.mem_singleton.mp hp]
                rw [alLookup_append_right _ _ _ hnone]
                simp [alLookup]
            · exact alLookup_append_left _ _ _ _ (hback e hein p hp)
          · intro e he
            rcases mem_alSet_elim m.sessions roomId s2 e hnd2 he with he | ⟨hein, _⟩
            · rw [he]
              constructor
              · dsimp only
                rw [hpl]
                refine List.Nodup.append hsnd (List.nodup_singleton _) ?_
                intro a ha hb
                rw [List.mem_singleton.mp hb] at ha
                exact hnotin ha
              · intro p hp
                exact hhs p hp
            · exact hok e hein

end GameManager

namespace GameManager

theorem leaveRoom_inv (m : GameManager) (playerId : String) (hInv : Inv m)
    (res : CreateResult) (m2 : GameManager) (h : leaveRoom m playerId = (res, m2)) :
    Inv m2 := by
  obtain ⟨hnd1, hnd2, hlive, hback, hok⟩ := hInv
  unfold leaveRoom at h
  cases hlr : alLookup m.playerRooms playerId with
  | none =>
    simp only [hlr] at h
    cases h
    exact ⟨hnd1, hnd2, hlive, hback, hok⟩
  | some roomId =>
    simp only [hlr] at h
    by_cases hrne : roomId = ""
    · rw [if_pos hrne] at h
      cases h
      exact ⟨hnd1, hnd2, hlive, hback, hok⟩
    · rw [if_neg hrne] at h
      cases hls : alLookup m.sessions roomId with
      | none =>
        simp only [hls] at h
        cases h
        exact ⟨hnd1, hnd2, hlive, hback, hok⟩
      | some sess =>
        simp only [hls] at h
        obtain ⟨hplayers, hhands⟩ := removePlayer_fields sess playerId
        have hmem_s : (roomId, sess) ∈ m.sessions := mem_of_alLookup _ _ _ hls
        obtain ⟨hsnd, hsh⟩ := hok (roomId, sess) hmem_s
        have hkeysS : (alSet m.sessions roomId
            (GameSession.removePlayer sess playerId)).map Prod.fst =
            m.sessions.map Prod.fst := alSet_keys_of_lookup_some _ _ _ sess hls
        by_cases hzero : (GameSession.removePlayer sess playerId).players.length = 0
        · rw [if_pos hzero] at h
          cases h
          have hempty : (GameSession.removePlayer sess playerId).players = [] :=
            List.length_eq_zero.mp hzero
          unfold Inv
          dsimp only
          refine ⟨keys_nodup_alErase _ _ hnd1, keys_nodup_alErase _ _ ?_, ?_, ?_, ?_⟩
          · rw [hkeysS]
            exact hnd2
          · intro e he
            obtain ⟨hein, hene⟩ := (mem_alErase _ _ _).mp he
            obtain ⟨sess3, hls3, hmem3⟩ := EntryLive_elim m e (hlive e hein)
            by_cases he2 : e.2 = roomId
            · exfalso
              rw [he2, hls] at hls3
              injection hls3 with h3
              subst h3
              have hin2 : e.1 ∈ (GameSession.removePlayer sess playerId).players := by
                rw [hplayers]
                exact List.mem_filter.mpr ⟨hmem3, decide_eq_true hene⟩
              rw [hempty] at hin2
              exact List.not_mem_nil _ hin2
            · refine EntryLive_of _ e sess3 ?_ hmem3
              show alLookup (alErase (alSet m.sessions roomId
                (GameSession.removePlayer sess playerId)) roomId) e.2 = some sess3
              rw [alLookup_alErase_ne _ _ _ he2, alLookup_alSet_ne _ _ _ _ he2]
              exact hls3
          · intro e he p hp
            obtain ⟨heA, heneR⟩ := (mem_alErase _ _ _).mp he
            rcases mem_alSet_elim m.sessions roomId _ e hnd2 heA with he1 | ⟨hein, _⟩
            · exfalso
              rw [he1] at heneR
              exact heneR rfl
            · have hb := hback e hein p hp
              have hpn : ¬ p = playerId := by
                intro hc
                rw [hc, hlr] at hb
                injection hb with hb2
                exact heneR hb2.symm
              rw [alLookup_alErase_ne _ _ _ hpn]
              exact hb
          · intro e he
            obtain ⟨heA, _⟩ := (mem_alErase _ _ _).mp he
            rcases mem_alSet_elim m.sessions roomId _ e hnd2 heA with he1 | ⟨hein, _⟩
            · rw [he1]
              constructor
              · dsimp only
                rw [hplayers]
                exact hsnd.filter _
              · intro p hp
                dsimp only at hp ⊢
                rw [hplayers] at hp
                obtain ⟨hpin, hpne⟩ := List.mem_filter.mp hp
                rw [hhands, alLookup_alErase_ne _ _ _ (of_decide_eq_true hpne)]
                exact hsh p hpin
            · exact hok e hein
        · rw [if_neg hzero] at h
          cases h
          unfold Inv
          dsimp only
          refine ⟨keys_nodup_alErase _ _ hnd1, ?_, ?_, ?_, ?_⟩
          · rw [hkeysS]
            exact hnd2
          · intro e he
            obtain ⟨hein, hene⟩ := (mem_alErase _ _ _).mp he
            obtain ⟨sess3, hls3, hmem3⟩ := EntryLive_elim m e (hlive e hein)
            by_cases he2 : e.2 = roomId
            · rw [he2, hls] at hls3
              injection hls3 with h3
              subst h3
              refine EntryLive_of _ e (GameSession.removePlayer sess playerId) ?_ ?_
              · show alLookup (alSet m.sessions roomId
                  (GameSession.removePlayer sess playerId)) e.2 =
                  some (GameSession.removePlayer sess playerId)
                rw [he2]
                exact alLookup_alSet_self _ _ _
              · rw [hplayers]
                exact List.mem_filter.mpr ⟨hmem3, decide_eq_true hene⟩
            · refine EntryLive_of _ e sess3 ?_ hmem3
              show alLookup (alSet m.sessions roomId
                (GameSession.removePlayer sess playerId)) e.2 = some sess3
              rw [alLookup_alSet_ne _ _ _ _ he2]
              exact hls3
          · intro e he p hp
            rcases mem_alSet_elim m.sessions roomId _ e hnd2 he with he1 | ⟨hein, hene⟩
            · rw [he1] at hp ⊢
              dsimp only at hp ⊢
              rw [hplayers] at hp
              obtain ⟨hpin, hpne⟩ := List.mem_filter.mp hp
              rw [alLookup_alErase_ne _ _ _ (of_decide_eq_true hpne)]
              exact hback (roomId, sess) hmem_s p hpin
            · have hb := hback e hein p hp
              have hpn : ¬ p = playerId := by
                intro hc
                rw [hc, hlr] at hb
                injection hb with hb2
                exact hene hb2.symm
              rw [alLookup_alErase_ne _ _ _ hpn]
              exact hb
          · intro e he
            rcases mem_alSet_elim m.sessions roomId _ e hnd2 he with he1 | ⟨hein, _⟩
            · rw [he1]
              constructor
              · dsimp only
                rw [hplayers]
                exact hsnd.filter _
              · intro p hp
                dsimp only at hp ⊢
                rw [hplayers] at hp
                obtain ⟨hpin, hpne⟩ := List.mem_filter.mp hp
                rw [hhands, alLookup_alErase_ne _ _ _ (of_decide_eq_true hpne)]
                exact hsh p hpin
            · exact hok e hein

end GameManager

/-- C8: the room registry keeps every player in at most one match.
`createRoom` and `joinRoom` return a typed `success := false` failure
without touching the manager when the caller is already registered, and
each of `createRoom` (under the generator's freshness guarantee),
`joinRoom`, `leaveRoom`, `cleanupEmptyRooms` and `cleanupFinishedGames`
preserves `GameManager.Inv`: at most one `playerRooms` entry per player,
each entry naming a live session whose roster contains the player (plus
the converse registration and per-session sanity facts that make the
invariant inductive).  Hence the invariant holds after any sequence of
these operations started from a state satisfying it. -/
theorem C8_registry_invariant (shuffled : List Card) (r : Fin 2) (m : GameManager)
    (playerId roomId freshId : String) (hInv : GameManager.Inv m) :
    (alLookup m.playerRooms playerId ≠ none →
      GameManager.createRoom shuffled r m playerId freshId =
        .ok ({ success := false,
               error := some "Вы уже находитесь в комнате. Сначала выйдите из текущей." }, m) ∧
      GameManager.joinRoom shuffled r m playerId roomId =
        .ok ({ success := false,
               error := some "Вы уже находитесь в комнате. Сначала выйдите из текущей." }, m)) ∧
    (∀ res m2, alLookup m.sessions freshId = none →
      GameManager.createRoom shuffled r m playerId freshId = .ok (res, m2) →
      GameManager.Inv m2) ∧
    (∀ res m2, GameManager.joinRoom shuffled r m playerId roomId = .ok (res, m2) →
      GameManager.Inv m2) ∧
    (∀ res m2, GameManager.leaveRoom m playerId = (res, m2) → GameManager.Inv m2) ∧
    (∀ n m2, GameManager.cleanupEmptyRooms m = (n, m2) → GameManager.Inv m2) ∧
    (∀ n m2, GameManager.cleanupFinishedGames m = (n, m2) → GameManager.Inv m2) := by
  refine ⟨?_, ?_, ?_, ?_, ?_, ?_⟩
  · intro hreg
    constructor
    · unfold GameManager.createRoom
      rw [if_pos hreg]
    · unfold GameManager.joinRoom
      rw [if_pos hreg]
  · intro res m2 hfresh h
    exact GameManager.createRoom_inv shuffled r m playerId freshId hInv hfresh res m2 h
  · intro res m2 h
    exact GameManager.joinRoom_inv shuffled r m playerId roomId hInv res m2 h
  · intro res m2 h
    exact GameManager.leaveRoom_inv m playerId hInv res m2 h
  · intro n m2 h
    have h2 := GameManager.cleanupEmptyRooms_inv m hInv
    rw [h] at h2
    exact h2
  · intro n m2 h
    have h2 := GameManager.cleanupFinishedGames_inv m hInv
    rw [h] at h2
    exact h2

/-- Witness for C8: the empty manager satisfies the invariant, and the
theorem's cleanup clause applies to it. -/
theorem C8_registry_invariant_witness :
    GameManager.Inv GameManager.empty ∧
    GameManager.Inv (GameManager.cleanupEmptyRooms GameManager.empty).2 :=
  ⟨by decide,
   (C8_registry_invariant generateDeck 0 GameManager.empty "A" "R" "R" (by decide)).2.2.2.2.1
     (GameManager.cleanupEmptyRooms GameManager.empty).1
     (GameManager.cleanupEmptyRooms GameManager.empty).2 rfl⟩
